import Mathlib

/-!
Verification development for the layout engine of the dprint repository.

The printer driver (`crates/core/src/formatting/printer.rs`) and the parser
helpers (`crates/core/src/formatting/parser_helpers/helpers.rs`) are embedded
shallowly below.  The writer, the snapshot collections and the print-item data
model live outside the provided sources (only their interfaces appear in the
printer), so they are modelled from the specification; each such definition is
marked `Modelled from the spec:` in its doc comment.
-/

namespace DprintFmt

/-- Modelled from the spec: §6 Output — write items emitted by the writer
(`Text`, `Tab`, `Space`, `NewLine`, `Indent(level)`, start/finish ignore
indent markers). -/
inductive WriteItem where
  | text (s : String) (charCount : Nat)
  | space
  | tab
  | newLine
  | indent (level : Nat)
  | startIgnoringIndent
  | finishIgnoringIndent
deriving DecidableEq, Repr

/-- Modelled from the spec: §4.1 Writer — the writer cursor state exposed by
`get_state` / `set_state`: accumulated items (most recent first), current
line/column, indentation level, queued indent, ignore-indent depth, the
pending expect-new-line mark, and the line-start geometry. -/
structure WriterState where
  items : List WriteItem
  lineNumber : Nat
  columnNumber : Nat
  indentLevel : Nat
  queuedIndentCount : Nat
  ignoreIndentCount : Nat
  expectNewLineNext : Bool
  lineStartIndentLevel : Nat
  lineStartColumnNumber : Nat
deriving DecidableEq, Repr

/-- Snapshot of writer geometry at a point (printer.rs `WriterInfo`). -/
structure WriterInfo where
  lineStartIndentLevel : Nat
  lineStartColumnNumber : Nat
  lineNumber : Nat
  columnNumber : Nat
  indentLevel : Nat
deriving DecidableEq, Repr

/-- `WriterInfo::get_line_and_column`. -/
def WriterInfo.getLineAndColumn (wi : WriterInfo) : Nat × Nat :=
  (wi.lineNumber, wi.columnNumber)

/-- Modelled from the spec: §4.5 — deriving the `WriterInfo` observable from a
saved writer state (`writer_state.get_writer_info`). -/
def WriterState.getWriterInfo (w : WriterState) : WriterInfo :=
  { lineStartIndentLevel := w.lineStartIndentLevel
    lineStartColumnNumber := w.lineStartColumnNumber
    lineNumber := w.lineNumber
    columnNumber := w.columnNumber
    indentLevel := w.indentLevel }

/-- The empty writer state at the start of a print invocation. -/
def initWriterState : WriterState :=
  { items := []
    lineNumber := 0
    columnNumber := 0
    indentLevel := 0
    queuedIndentCount := 0
    ignoreIndentCount := 0
    expectNewLineNext := false
    lineStartIndentLevel := 0
    lineStartColumnNumber := 0 }

/-- Modelled from the spec: §4.1 `new_line()` — append a newline, clear any
trailing space, apply any queued indent, reset the column to the indentation
and clear a pending expect-new-line mark. -/
def writerNewLine (indentWidth : Nat) (w : WriterState) : WriterState :=
  let trimmed : List WriteItem :=
    match w.items with
    | WriteItem.space :: rest => rest
    | l => l
  let newIndent := w.indentLevel + w.queuedIndentCount
  let col := if w.ignoreIndentCount > 0 then 0 else newIndent * indentWidth
  { items := WriteItem.newLine :: trimmed
    lineNumber := w.lineNumber + 1
    columnNumber := col
    indentLevel := newIndent
    queuedIndentCount := 0
    ignoreIndentCount := w.ignoreIndentCount
    expectNewLineNext := false
    lineStartIndentLevel := newIndent
    lineStartColumnNumber := col }

/-- Modelled from the spec: §4.1 `write(text)` — append a text run and bump
the column by its char count (the expect-new-line mark is materialised by the
printer-level wrapper below, so it is cleared here). -/
def writerWriteRaw (t : String) (charCount : Nat) (w : WriterState) : WriterState :=
  { w with
    items := WriteItem.text t charCount :: w.items
    columnNumber := w.columnNumber + charCount
    expectNewLineNext := false }

/-- Modelled from the spec: §4.1 `space_if_not_trailing()` — append a space
unless the last item is whitespace that would make it redundant. -/
def writerSpaceIfNotTrailing (w : WriterState) : WriterState :=
  match w.items with
  | WriteItem.space :: _ => w
  | WriteItem.newLine :: _ => w
  | WriteItem.tab :: _ => w
  | _ =>
    { w with
      items := WriteItem.space :: w.items
      columnNumber := w.columnNumber + 1 }

/-- Modelled from the spec: §4.1 `tab()` — append a tab; a tab counts
`indent_width` columns. -/
def writerTab (indentWidth : Nat) (w : WriterState) : WriterState :=
  { w with
    items := WriteItem.tab :: w.items
    columnNumber := w.columnNumber + indentWidth }

/-- Modelled from the spec: §4.1 `single_indent()` — append one per-config
indent marker. -/
def writerSingleIndent (indentWidth : Nat) (w : WriterState) : WriterState :=
  { w with
    items := WriteItem.indent 1 :: w.items
    columnNumber := w.columnNumber + indentWidth }

/-- Modelled from the spec: §4.1 `start_indent()` — immediate indent-level
increase. -/
def writerStartIndent (w : WriterState) : WriterState :=
  { w with indentLevel := w.indentLevel + 1 }

/-- Modelled from the spec: §4.1 `finish_indent()` — undo one indent bracket;
a still-queued indent is unqueued instead of decrementing the live level. -/
def writerFinishIndent (w : WriterState) : WriterState :=
  if w.queuedIndentCount > 0 then
    { w with queuedIndentCount := w.queuedIndentCount - 1 }
  else
    { w with indentLevel := w.indentLevel - 1 }

/-- Modelled from the spec: §4.1 `queue_indent()` — indent increase that takes
effect at the next newline. -/
def writerQueueIndent (w : WriterState) : WriterState :=
  { w with queuedIndentCount := w.queuedIndentCount + 1 }

/-- Modelled from the spec: §4.1 `start_ignoring_indent()`. -/
def writerStartIgnoringIndent (w : WriterState) : WriterState :=
  { w with
    items := WriteItem.startIgnoringIndent :: w.items
    ignoreIndentCount := w.ignoreIndentCount + 1 }

/-- Modelled from the spec: §4.1 `finish_ignoring_indent()`. -/
def writerFinishIgnoringIndent (w : WriterState) : WriterState :=
  { w with
    items := WriteItem.finishIgnoringIndent :: w.items
    ignoreIndentCount := w.ignoreIndentCount - 1 }

/-- Modelled from the spec: §4.1 `mark_expect_new_line()` — record that a
newline is required before the next text. -/
def writerMarkExpectNewLine (w : WriterState) : WriterState :=
  { w with expectNewLineNext := true }

section AssocList

variable {α : Type}

/-- Association-list lookup keyed by `Nat`; models `FnvHashMap::get` and the
spec's `FastCellMap::get` (§4.2). -/
def alookup (k : Nat) : List (Nat × α) → Option α
  | [] => none
  | (k', v) :: rest => if k' = k then some v else alookup k rest

/-- Key-membership test (`contains_key`). -/
def acontains (k : Nat) (m : List (Nat × α)) : Bool :=
  (alookup k m).isSome

/-- Map removal (`remove`); removes every binding of the key (maps built with
`ainsert` keep keys unique, so this agrees with hash-map removal). -/
def aremove (k : Nat) : List (Nat × α) → List (Nat × α)
  | [] => []
  | (k', v) :: rest => if k' = k then aremove k rest else (k', v) :: aremove k rest

/-- Map insert with overwrite (`insert`). -/
def ainsert (k : Nat) (v : α) (m : List (Nat × α)) : List (Nat × α) :=
  (k, v) :: aremove k m

theorem alookup_ainsert_self (k : Nat) (v : α) (m : List (Nat × α)) :
    alookup k (ainsert k v m) = some v := by
  simp [ainsert, alookup]

theorem alookup_aremove_self (k : Nat) (m : List (Nat × α)) :
    alookup k (aremove k m) = none := by
  induction m with
  | nil => rfl
  | cons hd tl ih =>
    rcases hd with ⟨k', v'⟩
    by_cases h : k' = k
    · simp [aremove, h, ih]
    · simp [aremove, h, alookup, ih]

theorem alookup_aremove_ne {j k : Nat} (h : j ≠ k) (m : List (Nat × α)) :
    alookup k (aremove j m) = alookup k m := by
  induction m with
  | nil => rfl
  | cons hd tl ih =>
    rcases hd with ⟨k', v'⟩
    by_cases hj : k' = j
    · subst hj
      simp [aremove, alookup, h, ih]
    · by_cases hk : k' = k
      · subst hk
        simp [aremove, hj, alookup, Ne.symm h]
      · simp [aremove, hj, alookup, hk, ih]

theorem alookup_ainsert_ne {j k : Nat} (h : j ≠ k) (v : α) (m : List (Nat × α)) :
    alookup k (ainsert j v m) = alookup k m := by
  simp [ainsert, alookup, h, alookup_aremove_ne h]

end AssocList

/-- Modelled from the spec: §3 — the signal variants of `PrintItem`. -/
inductive Signal where
  | newLine
  | tab
  | possibleNewLine
  | spaceOrNewLine
  | expectNewLine
  | queueStartIndent
  | startIndent
  | finishIndent
  | startNewLineGroup
  | finishNewLineGroup
  | singleIndent
  | startIgnoringIndent
  | finishIgnoringIndent
  | startForceNoNewLines
  | finishForceNoNewLines
  | spaceIfNotTrailing
deriving DecidableEq, Repr

/-- Modelled from the spec: §3 — a text run with its precomputed char count
(`StringContainer`). -/
structure StringContainer where
  text : String
  charCount : Nat
deriving DecidableEq, Repr

/-- Modelled from the spec: §3 — an `Info`: unique id plus a debug name. -/
structure InfoM where
  id : Nat
  name : String
deriving DecidableEq, Repr

/-- Modelled from the spec: §3 and §9 Resolver callbacks — condition resolvers
are callables returning `Option<bool>`; they are deep-embedded here by the
resolver shapes the development needs (a constant result, and a result read
off the context's writer geometry). -/
inductive Resolver where
  | const (value : Option Bool)
  | isColumnGt (n : Nat)
deriving DecidableEq, Repr

mutual

/-- Modelled from the spec: §3 — an instruction node: an instruction together
with a `next` pointer (`PrintNode`); a `some` pointer plays `PrintItemPath`. -/
inductive PrintNode where
  | mk (item : PrintItem) (next : Option PrintNode)

/-- Modelled from the spec: §3 — the `PrintItem` variants. -/
inductive PrintItem where
  | str (s : StringContainer)
  | signal (s : Signal)
  | infoItem (i : InfoM)
  | condition (c : CondM)
  | rcPath (p : PrintNode)

/-- Modelled from the spec: §3 — a `Condition`: id, name, resolver, true/false
paths, optional dependent infos and the `is_stored` flag. -/
inductive CondM where
  | mk (id : Nat) (name : String) (isStored : Bool) (resolver : Resolver)
       (truePath : Option PrintNode) (falsePath : Option PrintNode)
       (dependentInfos : List InfoM)

end

/-- The instruction of a node. -/
def PrintNode.item : PrintNode → PrintItem
  | .mk i _ => i

/-- The `next` pointer of a node (`get_next`). -/
def PrintNode.next : PrintNode → Option PrintNode
  | .mk _ n => n

/-- `Condition::get_unique_id`. -/
def CondM.id : CondM → Nat
  | .mk i _ _ _ _ _ _ => i

/-- `Condition::get_name`. -/
def CondM.name : CondM → String
  | .mk _ n _ _ _ _ _ => n

/-- The `is_stored` flag. -/
def CondM.isStored : CondM → Bool
  | .mk _ _ s _ _ _ _ => s

/-- The owned resolver. -/
def CondM.resolver : CondM → Resolver
  | .mk _ _ _ r _ _ _ => r

/-- The true path. -/
def CondM.truePath : CondM → Option PrintNode
  | .mk _ _ _ _ t _ _ => t

/-- The false path. -/
def CondM.falsePath : CondM → Option PrintNode
  | .mk _ _ _ _ _ f _ => f

/-- The declared dependent infos. -/
def CondM.dependentInfos : CondM → List InfoM
  | .mk _ _ _ _ _ _ d => d

/-- `SavePoint` (printer.rs): full checkpoint of the driver — group depth,
force-no-newlines depth, writer state, enclosing possible-new-line
save-point, current node, both look-ahead tables and the next-node stack. -/
inductive SavePoint where
  | mk (newLineGroupDepth : Nat)
       (forceNoNewlinesDepth : Nat)
       (writerState : WriterState)
       (possibleNewLineSavePoint : Option SavePoint)
       (node : Option PrintNode)
       (lookAheadConditionSavePoints : List (Nat × SavePoint))
       (lookAheadInfoSavePoints : List (Nat × SavePoint))
       (nextNodeStack : List (Option PrintNode))

/-- The captured new-line-group depth. -/
def SavePoint.newLineGroupDepth : SavePoint → Nat
  | .mk d _ _ _ _ _ _ _ => d

/-- The captured force-no-newlines depth. -/
def SavePoint.forceNoNewlinesDepth : SavePoint → Nat
  | .mk _ d _ _ _ _ _ _ => d

/-- The captured writer state. -/
def SavePoint.writerState : SavePoint → WriterState
  | .mk _ _ w _ _ _ _ _ => w

/-- The captured enclosing possible-new-line save-point. -/
def SavePoint.possibleNewLineSavePoint : SavePoint → Option SavePoint
  | .mk _ _ _ p _ _ _ _ => p

/-- The captured node to resume at. -/
def SavePoint.node : SavePoint → Option PrintNode
  | .mk _ _ _ _ n _ _ _ => n

/-- The captured look-ahead condition table. -/
def SavePoint.lookAheadConditionSavePoints : SavePoint → List (Nat × SavePoint)
  | .mk _ _ _ _ _ c _ _ => c

/-- The captured look-ahead info table. -/
def SavePoint.lookAheadInfoSavePoints : SavePoint → List (Nat × SavePoint)
  | .mk _ _ _ _ _ _ i _ => i

/-- The captured next-node stack. -/
def SavePoint.nextNodeStack : SavePoint → List (Option PrintNode)
  | .mk _ _ _ _ _ _ _ s => s

/-- Ghost record of one newline appended by the writer: the printer's
force-no-newlines depth at the moment of emission, and whether the newline was
inserted by the writer to honour a pending expect-new-line mark. -/
structure NewLineEvent where
  depth : Nat
  fromExpect : Bool
deriving DecidableEq, Repr

/-- The live state of `Printer` (printer.rs), with the two printer options and
an append-only ghost log of emitted newlines. -/
structure PState where
  possibleNewLineSavePoint : Option SavePoint
  newLineGroupDepth : Nat
  forceNoNewlinesDepth : Nat
  currentNode : Option PrintNode
  writer : WriterState
  resolvedConditions : List (Nat × Option Bool)
  resolvedInfos : List (Nat × WriterInfo)
  lookAheadConditionSavePoints : List (Nat × SavePoint)
  lookAheadInfoSavePoints : List (Nat × SavePoint)
  nextNodeStack : List (Option PrintNode)
  conditionsForInfos : List (Nat × List (Nat × (CondM × SavePoint)))
  maxWidth : Nat
  indentWidth : Nat
  skipMovingNext : Bool
  resolvingSavePoint : Option SavePoint
  storedInfoPositions : List (Nat × (Nat × Nat))
  newLineLog : List NewLineEvent

/-- `Printer::new` — the initial driver state for a start node and options. -/
def initPState (startNode : Option PrintNode) (maxWidth indentWidth : Nat) : PState :=
  { possibleNewLineSavePoint := none
    newLineGroupDepth := 0
    forceNoNewlinesDepth := 0
    currentNode := startNode
    writer := initWriterState
    resolvedConditions := []
    resolvedInfos := []
    lookAheadConditionSavePoints := []
    lookAheadInfoSavePoints := []
    nextNodeStack := []
    conditionsForInfos := []
    maxWidth := maxWidth
    indentWidth := indentWidth
    skipMovingNext := false
    resolvingSavePoint := none
    storedInfoPositions := []
    newLineLog := [] }

/-- `Printer::get_writer_info`. -/
def getWriterInfoP (p : PState) : WriterInfo :=
  { lineStartIndentLevel := p.writer.lineStartIndentLevel
    lineStartColumnNumber := p.writer.lineStartColumnNumber
    lineNumber := p.writer.lineNumber
    columnNumber := p.writer.columnNumber
    indentLevel := p.writer.indentLevel }

/-- `Printer::allow_new_lines` — new lines are allowed iff the
force-no-newlines depth is zero. -/
def allowNewLinesP (p : PState) : Bool :=
  p.forceNoNewlinesDepth = 0

/-- `Printer::is_above_max_width` — the current column plus `offset` exceeds
`max_width`. -/
def isAboveMaxWidth (offset : Nat) (p : PState) : Bool :=
  p.writer.columnNumber + offset > p.maxWidth

/-- `Printer::write_new_line` — emit a newline through the writer and clear the
possible-new-line save-point; the ghost log records the current
force-no-newlines depth. -/
def writeNewLineP (p : PState) : PState :=
  { p with
    writer := writerNewLine p.indentWidth p.writer
    possibleNewLineSavePoint := none
    newLineLog := { depth := p.forceNoNewlinesDepth, fromExpect := false } :: p.newLineLog }

/-- `Writer::write` lifted to the printer: a pending expect-new-line mark makes
the writer insert a newline before the text (spec §4.1); that writer-inserted
newline is logged with `fromExpect = true` and does not clear the printer's
possible-new-line save-point. -/
def writeTextP (t : StringContainer) (p : PState) : PState :=
  let p :=
    if p.writer.expectNewLineNext then
      { p with
        writer := writerNewLine p.indentWidth p.writer
        newLineLog := { depth := p.forceNoNewlinesDepth, fromExpect := true } :: p.newLineLog }
    else p
  { p with writer := writerWriteRaw t.text t.charCount p.writer }

/-- `Printer::create_save_point` — checkpoint the current driver state, with
`next_node` as the node to resume at. -/
def createSavePoint (nextNode : Option PrintNode) (p : PState) : SavePoint :=
  SavePoint.mk p.newLineGroupDepth p.forceNoNewlinesDepth p.writer
    p.possibleNewLineSavePoint nextNode p.lookAheadConditionSavePoints
    p.lookAheadInfoSavePoints p.nextNodeStack

/-- `Printer::get_save_point_for_restoring_condition` — reuse the save-point of
a condition re-resolution in progress, else checkpoint at the current node. -/
def getSavePointForRestoringCondition (p : PState) : SavePoint :=
  match p.resolvingSavePoint with
  | some sp => sp
  | none => createSavePoint p.currentNode p

/-- `Printer::mark_possible_new_line_if_able` — create a possible-new-line
save-point at the current node's successor, unless a save-point at a shallower
group depth already exists. -/
def markPossibleNewLineIfAble (p : PState) : PState :=
  let keep : Bool :=
    match p.possibleNewLineSavePoint with
    | some sp => decide (p.newLineGroupDepth > sp.newLineGroupDepth)
    | none => false
  if keep then p
  else
    let nextNode :=
      match p.currentNode with
      | some n => n.next
      | none => none
    { p with possibleNewLineSavePoint := some (createSavePoint nextNode p) }

/-- `Printer::update_state_to_save_point` — restore writer state, depths,
current node, next-node stack and both look-ahead tables from the save-point;
for a new-line restore, clear the possible-new-line save-point and emit a
newline, else restore it from the save-point; finally set `skip_moving_next`. -/
def updateStateToSavePoint (sp : SavePoint) (isForNewLine : Bool) (p : PState) : PState :=
  let p :=
    { p with
      writer := sp.writerState
      possibleNewLineSavePoint :=
        if isForNewLine then none else sp.possibleNewLineSavePoint
      currentNode := sp.node
      newLineGroupDepth := sp.newLineGroupDepth
      forceNoNewlinesDepth := sp.forceNoNewlinesDepth
      lookAheadConditionSavePoints := sp.lookAheadConditionSavePoints
      lookAheadInfoSavePoints := sp.lookAheadInfoSavePoints
      nextNodeStack := sp.nextNodeStack }
  let p := if isForNewLine then writeNewLineP p else p
  { p with skipMovingNext := true }

/-- `Printer::get_resolved_info` — return the resolved info if present; if it
is absent and no look-ahead info save-point exists for the id, record one. -/
def getResolvedInfo (i : InfoM) (p : PState) : Option WriterInfo × PState :=
  let resolved := alookup i.id p.resolvedInfos
  let p :=
    if resolved.isNone && !(acontains i.id p.lookAheadInfoSavePoints) then
      { p with
        lookAheadInfoSavePoints :=
          ainsert i.id (getSavePointForRestoringCondition p) p.lookAheadInfoSavePoints }
    else p
  (resolved, p)

/-- `Printer::clear_info`. -/
def clearInfoP (i : InfoM) (p : PState) : PState :=
  { p with resolvedInfos := aremove i.id p.resolvedInfos }

/-- `Printer::get_resolved_condition` — record a look-ahead condition
save-point when the id is neither resolved nor already awaited, then return
the memoized value (flattening a stored `None`). -/
def getResolvedCondition (condId : Nat) (p : PState) : Option Bool × PState :=
  let p :=
    if !(acontains condId p.resolvedConditions) &&
        !(acontains condId p.lookAheadConditionSavePoints) then
      { p with
        lookAheadConditionSavePoints :=
          ainsert condId (getSavePointForRestoringCondition p) p.lookAheadConditionSavePoints }
    else p
  match alookup condId p.resolvedConditions with
  | none => (none, p)
  | some v => (v, p)

/-- `Printer::has_info_moved` — compare the latest resolved position of an
info against the stored one, updating the stored position on change. -/
def hasInfoMoved (i : InfoM) (p : PState) : Option Bool × PState :=
  match getResolvedInfo i p with
  | (none, p) => (none, p)
  | (some wi, p) =>
    let position := wi.getLineAndColumn
    match alookup i.id p.storedInfoPositions with
    | some storedPosition =>
      if position ≠ storedPosition then
        (some true,
          { p with storedInfoPositions := ainsert i.id position p.storedInfoPositions })
      else (some false, p)
    | none =>
      (some false,
        { p with storedInfoPositions := ainsert i.id position p.storedInfoPositions })

/-- Evaluation of the deep-embedded resolvers against the context's writer
info; the embedded resolver shapes do not touch the driver state. -/
def evalResolver (r : Resolver) (wi : WriterInfo) (p : PState) : Option Bool × PState :=
  match r with
  | .const v => (v, p)
  | .isColumnGt n => (some (wi.columnNumber > n), p)

/-- Insert into the nested `conditions_for_infos` registration table. -/
def cfiInsert (infoId condId : Nat) (v : CondM × SavePoint)
    (m : List (Nat × List (Nat × (CondM × SavePoint)))) :
    List (Nat × List (Nat × (CondM × SavePoint))) :=
  let inner :=
    match alookup infoId m with
    | some l => l
    | none => []
  ainsert infoId (ainsert condId v inner) m

/-- `Printer::handle_signal`. -/
def handleSignal (signal : Signal) (p : PState) : PState :=
  match signal with
  | .newLine =>
    if allowNewLinesP p then writeNewLineP p else p
  | .tab => { p with writer := writerTab p.indentWidth p.writer }
  | .expectNewLine =>
    { p with
      writer := writerMarkExpectNewLine p.writer
      possibleNewLineSavePoint := none }
  | .possibleNewLine =>
    if allowNewLinesP p then markPossibleNewLineIfAble p else p
  | .spaceOrNewLine =>
    if allowNewLinesP p then
      if isAboveMaxWidth 1 p then
        match p.possibleNewLineSavePoint with
        | none => writeNewLineP { p with possibleNewLineSavePoint := none }
        | some saveState =>
          if saveState.newLineGroupDepth ≥ p.newLineGroupDepth then
            writeNewLineP { p with possibleNewLineSavePoint := none }
          else
            updateStateToSavePoint saveState true { p with possibleNewLineSavePoint := none }
      else
        let p := markPossibleNewLineIfAble p
        { p with writer := writerSpaceIfNotTrailing p.writer }
    else { p with writer := writerSpaceIfNotTrailing p.writer }
  | .queueStartIndent => { p with writer := writerQueueIndent p.writer }
  | .startIndent => { p with writer := writerStartIndent p.writer }
  | .finishIndent => { p with writer := writerFinishIndent p.writer }
  | .startNewLineGroup => { p with newLineGroupDepth := p.newLineGroupDepth + 1 }
  | .finishNewLineGroup => { p with newLineGroupDepth := p.newLineGroupDepth - 1 }
  | .singleIndent => { p with writer := writerSingleIndent p.indentWidth p.writer }
  | .startIgnoringIndent => { p with writer := writerStartIgnoringIndent p.writer }
  | .finishIgnoringIndent => { p with writer := writerFinishIgnoringIndent p.writer }
  | .startForceNoNewLines => { p with forceNoNewlinesDepth := p.forceNoNewlinesDepth + 1 }
  | .finishForceNoNewLines => { p with forceNoNewlinesDepth := p.forceNoNewlinesDepth - 1 }
  | .spaceIfNotTrailing => { p with writer := writerSpaceIfNotTrailing p.writer }

/-- The re-evaluation loop of `Printer::handle_info` over the registered
conditions of an info: re-run each stored condition's resolver anchored at its
registration save-point; rewind on a changed `Some` result (stopping the
loop), drop the memo on a `None` result. -/
def reevalConds : List (Nat × (CondM × SavePoint)) → PState → PState
  | [], p => p
  | (_, (c, sp)) :: rest, p =>
    match alookup c.id p.resolvedConditions with
    | some (some storedValue) =>
      let p1 := { p with resolvingSavePoint := some sp }
      let r := evalResolver c.resolver sp.writerState.getWriterInfo p1
      let p2 := { r.2 with resolvingSavePoint := none }
      match r.1 with
      | some conditionValue =>
        if conditionValue ≠ storedValue then updateStateToSavePoint sp false p2
        else reevalConds rest p2
      | none =>
        reevalConds rest { p2 with resolvedConditions := aremove c.id p2.resolvedConditions }
    | _ => reevalConds rest p

/-- `Printer::handle_info` — record the writer info for the id; consume a
pending look-ahead save-point for the id by restoring to it; otherwise
re-evaluate the conditions registered as depending on this info. -/
def handleInfo (i : InfoM) (p : PState) : PState :=
  let p := { p with resolvedInfos := ainsert i.id (getWriterInfoP p) p.resolvedInfos }
  match alookup i.id p.lookAheadInfoSavePoints with
  | some savePoint =>
    updateStateToSavePoint savePoint false
      { p with lookAheadInfoSavePoints := aremove i.id p.lookAheadInfoSavePoints }
  | none =>
    match alookup i.id p.conditionsForInfos with
    | some conditionsForInfo => reevalConds conditionsForInfo p
    | none => p

/-- The dependent-info registration loop at the head of
`Printer::handle_condition`: for each declared dependent info, take a
save-point at the condition's site and register the pair in
`conditions_for_infos`. -/
def registerDependentInfos (c : CondM) (infos : List InfoM) (p : PState) : PState :=
  infos.foldl
    (fun p i =>
      let savePoint := getSavePointForRestoringCondition p
      { p with conditionsForInfos := cfiInsert i.id c.id (c, savePoint) p.conditionsForInfos })
    p

/-- `Printer::handle_condition` — register dependent infos, resolve (memoizing
when `is_stored`), consume a pending look-ahead condition save-point by
restoring to it when the value is known, else descend into the chosen path. -/
def handleCondition (c : CondM) (nextNode : Option PrintNode) (p : PState) : PState :=
  let p := registerDependentInfos c c.dependentInfos p
  let r := evalResolver c.resolver (getWriterInfoP p) p
  let conditionValue := r.1
  let p := r.2
  let p :=
    if c.isStored then
      { p with resolvedConditions := ainsert c.id conditionValue p.resolvedConditions }
    else p
  match alookup c.id p.lookAheadConditionSavePoints, conditionValue with
  | some savePoint, some _ =>
    updateStateToSavePoint savePoint false
      { p with lookAheadConditionSavePoints := aremove c.id p.lookAheadConditionSavePoints }
  | _, _ =>
    if conditionValue = some true then
      match c.truePath with
      | some truePath =>
        { p with
          currentNode := some truePath
          nextNodeStack := nextNode :: p.nextNodeStack
          skipMovingNext := true }
      | none => p
    else
      match c.falsePath with
      | some falsePath =>
        { p with
          currentNode := some falsePath
          nextNodeStack := nextNode :: p.nextNodeStack
          skipMovingNext := true }
      | none => p

/-- `Printer::handle_rc_path` — push the successor and descend into the shared
subgraph. -/
def handleRcPath (path : PrintNode) (nextNode : Option PrintNode) (p : PState) : PState :=
  { p with
    nextNodeStack := nextNode :: p.nextNodeStack
    currentNode := some path
    skipMovingNext := true }

/-- `Printer::handle_string` — on a live possible-new-line save-point, an
overflowing width and newlines allowed, restore the save-point for a newline;
otherwise append the text via the writer. -/
def handleString (t : StringContainer) (p : PState) : PState :=
  match p.possibleNewLineSavePoint with
  | some savePoint =>
    if isAboveMaxWidth t.charCount p && allowNewLinesP p then
      updateStateToSavePoint savePoint true { p with possibleNewLineSavePoint := none }
    else writeTextP t p
  | none => writeTextP t p

/-- `Printer::handle_print_node` — dispatch on the instruction variant. -/
def handlePrintNode (node : PrintNode) (p : PState) : PState :=
  match node.item with
  | .str t => handleString t p
  | .condition c => handleCondition c node.next p
  | .infoItem i => handleInfo i p
  | .signal s => handleSignal s p
  | .rcPath path => handleRcPath path node.next p

/-- The pop loop at the bottom of `Printer::inner_print`: while the current
node is exhausted, pop a continuation off the next-node stack. -/
def popFlatten : Option PrintNode → List (Option PrintNode) →
    Option PrintNode × List (Option PrintNode)
  | some n, stack => (some n, stack)
  | none, [] => (none, [])
  | none, top :: rest => popFlatten top rest

/-- One iteration of the `Printer::inner_print` loop: handle the current node,
advance to its successor unless the handler set `skip_moving_next`, then pop
continuations while the current node is exhausted. -/
def stepP (p : PState) : PState :=
  match p.currentNode with
  | none => p
  | some node =>
    let p := handlePrintNode node p
    let p :=
      if p.skipMovingNext then { p with skipMovingNext := false }
      else
        match p.currentNode with
        | some cur => { p with currentNode := cur.next }
        | none => p
    let popped := popFlatten p.currentNode p.nextNodeStack
    { p with currentNode := popped.1, nextNodeStack := popped.2 }

/-- Fuelled iteration of `stepP` until the current node is exhausted. -/
def runSteps : Nat → PState → PState
  | 0, p => p
  | fuel + 1, p =>
    match p.currentNode with
    | none => p
    | some _ => runSteps fuel (stepP p)

/-- `Printer::print` — run the driver and return the emitted write-item stream
in emission order. -/
def printModel (fuel : Nat) (startNode : Option PrintNode) (maxWidth indentWidth : Nat) :
    List WriteItem :=
  (runSteps fuel (initPState startNode maxWidth indentWidth)).writer.items.reverse

/-- Chain a flat list of instructions into a linked node list (`PrintItems`
handed to the printer). -/
def buildNodes : List PrintItem → Option PrintNode
  | [] => none
  | i :: rest => some (PrintNode.mk i (buildNodes rest))

/-- Shorthand for a text instruction with its char count. -/
def strItem (s : String) : PrintItem :=
  PrintItem.str { text := s, charCount := s.length }

/-! ## C5 — rewinding restores the full driver checkpoint -/

/-- C5: `update_state_to_save_point(sp, is_for_new_line)` restores the writer
state, both depth counters, current node, next-node stack, and both look-ahead
tables from `sp`; if `is_for_new_line` it clears the possible-new-line
save-point and emits a newline (recorded in the ghost log), else it restores
the possible-new-line save-point from `sp`; and it sets `skip_moving_next`. -/
theorem updateStateToSavePoint_spec (sp : SavePoint) (isForNewLine : Bool) (p : PState) :
    (updateStateToSavePoint sp isForNewLine p).newLineGroupDepth = sp.newLineGroupDepth ∧
    (updateStateToSavePoint sp isForNewLine p).forceNoNewlinesDepth = sp.forceNoNewlinesDepth ∧
    (updateStateToSavePoint sp isForNewLine p).currentNode = sp.node ∧
    (updateStateToSavePoint sp isForNewLine p).nextNodeStack = sp.nextNodeStack ∧
    (updateStateToSavePoint sp isForNewLine p).lookAheadConditionSavePoints =
      sp.lookAheadConditionSavePoints ∧
    (updateStateToSavePoint sp isForNewLine p).lookAheadInfoSavePoints =
      sp.lookAheadInfoSavePoints ∧
    (updateStateToSavePoint sp isForNewLine p).writer =
      (if isForNewLine then writerNewLine p.indentWidth sp.writerState else sp.writerState) ∧
    (updateStateToSavePoint sp isForNewLine p).possibleNewLineSavePoint =
      (if isForNewLine then none else sp.possibleNewLineSavePoint) ∧
    (updateStateToSavePoint sp isForNewLine p).newLineLog =
      (if isForNewLine then
        ({ depth := sp.forceNoNewlinesDepth, fromExpect := false } : NewLineEvent) :: p.newLineLog
       else p.newLineLog) ∧
    (updateStateToSavePoint sp isForNewLine p).skipMovingNext = true := by
  cases isForNewLine <;>
    simp [updateStateToSavePoint, writeNewLineP]

/-! ## C4 — the String handler -/

/-- C4: handling a `String` instruction restores the live possible-new-line
save-point for a newline exactly when one exists, appending the text would
exceed `max_width`, and new lines are allowed; in every other case the text is
appended via the writer. -/
theorem handleString_spec (t : StringContainer) (p : PState) :
    (∀ sp, p.possibleNewLineSavePoint = some sp →
      isAboveMaxWidth t.charCount p = true → allowNewLinesP p = true →
      handleString t p = updateStateToSavePoint sp true p) ∧
    ((p.possibleNewLineSavePoint = none ∨ isAboveMaxWidth t.charCount p = false ∨
        allowNewLinesP p = false) →
      handleString t p = writeTextP t p) := by
  constructor
  · intro sp hsp habove hallow
    simp only [handleString, hsp, habove, hallow, Bool.and_self, if_pos]
    simp [updateStateToSavePoint]
  · intro h
    rcases hcase : p.possibleNewLineSavePoint with _ | sp
    · simp [handleString, hcase]
    · rcases h with h | h | h
      · rw [hcase] at h
        exact absurd h (by simp)
      · simp [handleString, hcase, h]
      · simp [handleString, hcase, h]

/-- Witness for C4 at a concrete overflowing state: the rewind branch. -/
def pC4 : PState :=
  { initPState none 10 2 with
    possibleNewLineSavePoint := some (SavePoint.mk 0 0 initWriterState none none [] [] [])
    writer := { initWriterState with columnNumber := 9, items := [WriteItem.text "aaaaaaaaa" 9] } }

/-- C4 witness: at `pC4`, the text `"bb"` overflows width 10 and the handler
equals the save-point restore. -/
theorem handleString_spec_witness :
    handleString { text := "bb", charCount := 2 } pC4 =
      updateStateToSavePoint (SavePoint.mk 0 0 initWriterState none none [] [] []) true pC4 :=
  (handleString_spec { text := "bb", charCount := 2 } pC4).1
    (SavePoint.mk 0 0 initWriterState none none [] [] []) rfl (by decide) (by decide)

/-! ## C1 — the SpaceOrNewLine handler -/

/-- C1 counterexample: the claim says a possible-new-line save-point **at or
below** the current group depth is rewound to; at an *equal* depth the code
instead writes the newline at the current position. Here the save-point depth
(1) equals the group depth (1), the width is exceeded, new lines are allowed,
yet the handler's writer output differs from the rewind the claim requires. -/
def spC1 : SavePoint := SavePoint.mk 1 0 initWriterState none none [] [] []

/-- Concrete printer state for the C1 counterexample: column 10 at width 10,
group depth 1, a live possible-new-line save-point of depth 1. -/
def pC1 : PState :=
  { initPState (buildNodes [PrintItem.signal Signal.spaceOrNewLine]) 10 2 with
    newLineGroupDepth := 1
    possibleNewLineSavePoint := some spC1
    writer := { initWriterState with columnNumber := 10, items := [WriteItem.text "x" 1] } }

/-- C1 counterexample theorem: all premises of the claim's rewind case hold at
`pC1` (save-point depth ≤ group depth, newlines allowed, width exceeded), yet
the handler does not produce the claimed rewind-with-newline result. -/
theorem spaceOrNewLine_counterexample :
    pC1.possibleNewLineSavePoint = some spC1 ∧
    spC1.newLineGroupDepth ≤ pC1.newLineGroupDepth ∧
    allowNewLinesP pC1 = true ∧
    isAboveMaxWidth 1 pC1 = true ∧
    (handleSignal Signal.spaceOrNewLine pC1).writer.items ≠
      (updateStateToSavePoint spC1 true pC1).writer.items := by
  refine ⟨rfl, by decide, by decide, by decide, by decide⟩

/-- C1 (amended): with new lines allowed and the width exceeded, the handler
rewinds to the possible-new-line save-point only when its group depth is
**strictly below** the current depth; when no save-point exists or its depth
is at or above the current depth it writes the newline at the current
position; when the width is not exceeded it marks a possible-new-line
save-point and emits a non-trailing space; with new lines disallowed it only
emits a space. -/
theorem spaceOrNewLine_spec (p : PState) :
    (allowNewLinesP p = false →
      handleSignal Signal.spaceOrNewLine p =
        { p with writer := writerSpaceIfNotTrailing p.writer }) ∧
    (allowNewLinesP p = true → isAboveMaxWidth 1 p = true →
      (p.possibleNewLineSavePoint = none →
        handleSignal Signal.spaceOrNewLine p = writeNewLineP p) ∧
      (∀ sp, p.possibleNewLineSavePoint = some sp →
        (sp.newLineGroupDepth < p.newLineGroupDepth →
          handleSignal Signal.spaceOrNewLine p = updateStateToSavePoint sp true p) ∧
        (sp.newLineGroupDepth ≥ p.newLineGroupDepth →
          handleSignal Signal.spaceOrNewLine p =
            writeNewLineP { p with possibleNewLineSavePoint := none }))) ∧
    (allowNewLinesP p = true → isAboveMaxWidth 1 p = false →
      handleSignal Signal.spaceOrNewLine p =
        { markPossibleNewLineIfAble p with
          writer := writerSpaceIfNotTrailing (markPossibleNewLineIfAble p).writer }) := by
  refine ⟨?_, ?_, ?_⟩
  · intro hallow
    simp [handleSignal, hallow]
  · intro hallow habove
    constructor
    · intro hnone
      simp [handleSignal, hallow, habove, hnone, writeNewLineP]
    · intro sp hsp
      constructor
      · intro hlt
        have hge : ¬ (sp.newLineGroupDepth ≥ p.newLineGroupDepth) := by omega
        simp [handleSignal, hallow, habove, hsp, hge, updateStateToSavePoint]
      · intro hge
        simp [handleSignal, hallow, habove, hsp, hge, writeNewLineP]
  · intro hallow hfits
    simp [handleSignal, hallow, hfits]

/-- Save-point for the C1 witness (depth 0, strictly below group depth 1). -/
def spC1w : SavePoint := SavePoint.mk 0 0 initWriterState none none [] [] []

/-- State for the C1 witness. -/
def pC1w : PState :=
  { initPState (buildNodes [PrintItem.signal Signal.spaceOrNewLine]) 10 2 with
    newLineGroupDepth := 1
    possibleNewLineSavePoint := some spC1w
    writer := { initWriterState with columnNumber := 10, items := [WriteItem.text "x" 1] } }

/-- C1 witness: at `pC1w` the save-point depth (0) is strictly below the group
depth (1), so the handler rewinds to it. -/
theorem spaceOrNewLine_spec_witness :
    handleSignal Signal.spaceOrNewLine pC1w = updateStateToSavePoint spC1w true pC1w :=
  (((spaceOrNewLine_spec pC1w).2.1 (by decide) (by decide)).2 spC1w rfl).1 (by decide)

/-! ## C3 — the Info handler -/

/-- Save-point for the C3 counterexample, holding a writer state that differs
from the live one. -/
def spC3 : SavePoint :=
  SavePoint.mk 0 0
    { initWriterState with columnNumber := 3, items := [WriteItem.text "abc" 3] }
    none none [] [] []

/-- Info for the C3 counterexample. -/
def iC3 : InfoM := { id := 5, name := "c3info" }

/-- State for the C3 counterexample: a look-ahead info save-point is pending
for id 5. -/
def pC3 : PState :=
  { initPState none 10 2 with lookAheadInfoSavePoints := [(5, spC3)] }

/-- C3 counterexample theorem: a look-ahead info save-point exists for the id,
and handling the `Info` *changes* the writer state (the code rewinds to the
save-point), contradicting the claim that consumption happens without
rewinding and leaves the writer state unchanged. -/
theorem handleInfo_counterexample :
    alookup iC3.id pC3.lookAheadInfoSavePoints = some spC3 ∧
    (handleInfo iC3 pC3).writer ≠ pC3.writer ∧
    (handleInfo iC3 pC3).skipMovingNext ≠ pC3.skipMovingNext := by
  refine ⟨rfl, by decide, by decide⟩

/-- C3 (amended): handling an `Info` records `resolved_infos[id]` as the
current writer info, and if a look-ahead info save-point exists for the id it
consumes (removes) it and **rewinds** the driver state to it with
`is_for_new_line = false` — so no newline is emitted and the
possible-new-line save-point is restored from the save-point — while the
just-recorded resolved info survives the rewind. -/
theorem handleInfo_lookahead_spec (i : InfoM) (p : PState) (sp : SavePoint)
    (h : alookup i.id p.lookAheadInfoSavePoints = some sp) :
    handleInfo i p =
      updateStateToSavePoint sp false
        { p with
          resolvedInfos := ainsert i.id (getWriterInfoP p) p.resolvedInfos
          lookAheadInfoSavePoints := aremove i.id p.lookAheadInfoSavePoints } := by
  unfold handleInfo
  simp [h]

/-- C3 witness: the amended Info-handler law applied at the concrete
counterexample state. -/
theorem handleInfo_lookahead_spec_witness :
    handleInfo iC3 pC3 =
      updateStateToSavePoint spC3 false
        { pC3 with
          resolvedInfos := ainsert iC3.id (getWriterInfoP pC3) pC3.resolvedInfos
          lookAheadInfoSavePoints := aremove iC3.id pC3.lookAheadInfoSavePoints } :=
  handleInfo_lookahead_spec iC3 pC3 spC3 rfl

/-! ## C8 — has_info_moved -/

/-- C8: for an `Info` whose position is resolved, `has_info_moved` compares
the latest resolved (line, column) against the stored position: a differing
stored position is updated and `true` is returned; an equal stored position
returns `false` with no state change; an absent stored position is recorded
and `false` is returned. -/
theorem hasInfoMoved_spec (i : InfoM) (p : PState) (wi : WriterInfo)
    (h : alookup i.id p.resolvedInfos = some wi) :
    (∀ st, alookup i.id p.storedInfoPositions = some st →
      (wi.getLineAndColumn ≠ st →
        hasInfoMoved i p = (some true,
          { p with storedInfoPositions :=
              ainsert i.id wi.getLineAndColumn p.storedInfoPositions })) ∧
      (wi.getLineAndColumn = st → hasInfoMoved i p = (some false, p))) ∧
    (alookup i.id p.storedInfoPositions = none →
      hasInfoMoved i p = (some false,
        { p with storedInfoPositions :=
            ainsert i.id wi.getLineAndColumn p.storedInfoPositions })) := by
  constructor
  · intro st hst
    constructor
    · intro hne
      simp [hasInfoMoved, getResolvedInfo, h, hst, hne]
    · intro heq
      simp [hasInfoMoved, getResolvedInfo, h, hst, heq]
  · intro hst
    simp [hasInfoMoved, getResolvedInfo, h, hst]

/-- Info for the C8 witness. -/
def iC8 : InfoM := { id := 9, name := "c8info" }

/-- State for the C8 witness: id 9 resolved at line 2 column 4, stored
position (1, 1). -/
def pC8 : PState :=
  { initPState none 10 2 with
    resolvedInfos :=
      [(9, { lineStartIndentLevel := 0, lineStartColumnNumber := 0, lineNumber := 2,
             columnNumber := 4, indentLevel := 0 })]
    storedInfoPositions := [(9, (1, 1))] }

/-- C8 witness: at `pC8` the resolved position (2, 4) differs from the stored
(1, 1), so `has_info_moved` updates the stored position and returns true. -/
theorem hasInfoMoved_spec_witness :
    hasInfoMoved iC8 pC8 = (some true,
      { pC8 with storedInfoPositions := ainsert 9 (2, 4) pC8.storedInfoPositions }) :=
  ((hasInfoMoved_spec iC8 pC8
      { lineStartIndentLevel := 0, lineStartColumnNumber := 0, lineNumber := 2,
        columnNumber := 4, indentLevel := 0 } rfl).1 (1, 1) rfl).1 (by decide)

/-! ## C10 — look-ahead registration in get_resolved_info / get_resolved_condition -/

/-- C10: `get_resolved_info` on an unresolved id returns `none` and inserts a
look-ahead info save-point (built by `get_save_point_for_restoring_condition`,
which reuses `resolving_save_point` during a condition re-resolution) unless
one is already present; on a resolved id it returns the entry and leaves the
state unchanged. The analogous behaviour holds for `get_resolved_condition`
over the look-ahead condition table. -/
theorem getResolved_lookahead_spec (i : InfoM) (condId : Nat) (p : PState) :
    (∀ wi, alookup i.id p.resolvedInfos = some wi → getResolvedInfo i p = (some wi, p)) ∧
    (alookup i.id p.resolvedInfos = none →
      getResolvedInfo i p = (none,
        if acontains i.id p.lookAheadInfoSavePoints then p
        else { p with lookAheadInfoSavePoints :=
                ainsert i.id (getSavePointForRestoringCondition p) p.lookAheadInfoSavePoints })) ∧
    (∀ v, alookup condId p.resolvedConditions = some v →
      getResolvedCondition condId p = (v, p)) ∧
    (alookup condId p.resolvedConditions = none →
      getResolvedCondition condId p = (none,
        if acontains condId p.lookAheadConditionSavePoints then p
        else { p with lookAheadConditionSavePoints :=
                ainsert condId (getSavePointForRestoringCondition p) p.lookAheadConditionSavePoints })) := by
  refine ⟨?_, ?_, ?_, ?_⟩
  · intro wi h
    simp [getResolvedInfo, h]
  · intro h
    by_cases hc : acontains i.id p.lookAheadInfoSavePoints
    · simp [getResolvedInfo, h, hc]
    · simp [getResolvedInfo, h, hc]
  · intro v h
    have hc : acontains condId p.resolvedConditions = true := by
      simp [acontains, h]
    simp [getResolvedCondition, hc, h]
  · intro h
    have hc : acontains condId p.resolvedConditions = false := by
      simp [acontains, h]
    by_cases hl : acontains condId p.lookAheadConditionSavePoints
    · simp [getResolvedCondition, hc, hl, h]
    · simp [getResolvedCondition, hc, hl, h]

/-- Info for the C10 witness. -/
def iC10 : InfoM := { id := 3, name := "c10info" }

/-- State for the C10 witness: nothing resolved, no look-ahead entries. -/
def pC10 : PState := initPState none 10 2

/-- C10 witness: on a fresh state, querying an unresolved info returns `none`
and registers a look-ahead save-point for its id. -/
theorem getResolved_lookahead_spec_witness :
    getResolvedInfo iC10 pC10 = (none,
      { pC10 with lookAheadInfoSavePoints :=
                    ainsert iC10.id (getSavePointForRestoringCondition pC10)
                      pC10.lookAheadInfoSavePoints }) := by
  have h := (getResolved_lookahead_spec iC10 0 pC10).2.1 rfl
  simpa using h

/-! ## C7 — determinism of print -/

/-- C7: printing is deterministic — two runs of the printer on the same
instruction graph with the same options produce identical write-item
streams, rewinds included. -/
theorem print_deterministic (fuel : Nat) (startNode : Option PrintNode) (mw iw : Nat)
    (out1 out2 : List WriteItem)
    (h1 : printModel fuel startNode mw iw = out1)
    (h2 : printModel fuel startNode mw iw = out2) : out1 = out2 :=
  h1.symm.trans h2

/-- Graph for the C7 witness: scenario S2 of the spec, which rewinds during
printing. -/
def gC7 : Option PrintNode :=
  buildNodes [strItem "foooo", PrintItem.signal Signal.spaceOrNewLine, strItem "bar",
    PrintItem.signal Signal.spaceOrNewLine, strItem "baz"]

/-- C7 witness: two evaluations of the printer on the S2 graph agree. -/
theorem print_deterministic_witness :
    printModel 50 gC7 10 2 = printModel 50 gC7 10 2 :=
  print_deterministic 50 gC7 10 2 (printModel 50 gC7 10 2) (printModel 50 gC7 10 2) rfl rfl

/-! ## C6 — lifecycle of resolved_conditions -/

/-- The resolvers' reported value depends only on the context writer info. -/
theorem evalResolver_fst (r : Resolver) (wi : WriterInfo) (q q' : PState) :
    (evalResolver r wi q).1 = (evalResolver r wi q').1 := by
  cases r <;> rfl

/-- The embedded resolvers leave the driver state unchanged. -/
theorem evalResolver_snd (r : Resolver) (wi : WriterInfo) (q : PState) :
    (evalResolver r wi q).2 = q := by
  cases r <;> rfl

/-- Rewinding never touches the memoized condition results (the save-point
does not capture `resolved_conditions`). -/
theorem updateStateToSavePoint_resolvedConditions (sp : SavePoint) (b : Bool) (p : PState) :
    (updateStateToSavePoint sp b p).resolvedConditions = p.resolvedConditions := by
  cases b <;> simp [updateStateToSavePoint, writeNewLineP]

/-- Dependent-info registration does not touch the memoized condition results,
the writer, the look-ahead condition table or the resolving save-point. -/
theorem registerDependentInfos_frame (c : CondM) (infos : List InfoM) (p : PState) :
    (registerDependentInfos c infos p).resolvedConditions = p.resolvedConditions ∧
    (registerDependentInfos c infos p).writer = p.writer ∧
    (registerDependentInfos c infos p).lookAheadConditionSavePoints =
      p.lookAheadConditionSavePoints ∧
    (registerDependentInfos c infos p).resolvingSavePoint = p.resolvingSavePoint := by
  induction infos generalizing p with
  | nil => exact ⟨rfl, rfl, rfl, rfl⟩
  | cons hd tl ih =>
    have h := ih ({ p with
      conditionsForInfos :=
        cfiInsert hd.id c.id (c, getSavePointForRestoringCondition p) p.conditionsForInfos })
    simpa [registerDependentInfos, List.foldl] using h

/-- The info-triggered re-evaluation loop only removes (never adds or alters)
entries of `resolved_conditions`. -/
theorem reevalConds_resolvedConditions_mono
    (conds : List (Nat × (CondM × SavePoint))) (p : PState) (k : Nat) (v : Option Bool)
    (h : alookup k (reevalConds conds p).resolvedConditions = some v) :
    alookup k p.resolvedConditions = some v := by
  induction conds generalizing p with
  | nil => exact h
  | cons hd tl ih =>
    rcases hd with ⟨j, c, sp⟩
    rcases hlook : alookup c.id p.resolvedConditions with _ | ov
    · simp only [reevalConds, hlook] at h
      exact ih _ h
    · rcases ov with _ | sv
      · simp only [reevalConds, hlook] at h
        exact ih _ h
      · simp only [reevalConds, hlook, evalResolver_snd] at h
        rcases hval : (evalResolver c.resolver sp.writerState.getWriterInfo
            { p with resolvingSavePoint := some sp }).1 with _ | cv
        · rw [hval] at h
          have h' := ih _ h
          by_cases hk : c.id = k
          · subst hk
            rw [alookup_aremove_self] at h'
            exact absurd h' (by simp)
          · rw [alookup_aremove_ne hk] at h'
            exact h'
        · rw [hval] at h
          simp only [ne_eq] at h
          by_cases hcveq : cv = sv
          · rw [if_neg (by simp [hcveq])] at h
            have h' := ih _ h
            exact h'
          · rw [if_pos hcveq, updateStateToSavePoint_resolvedConditions] at h
            exact h

/-- `handle_info` only removes (never adds or alters) entries of
`resolved_conditions`. -/
theorem handleInfo_resolvedConditions_mono (i : InfoM) (p : PState) (k : Nat) (v : Option Bool)
    (h : alookup k (handleInfo i p).resolvedConditions = some v) :
    alookup k p.resolvedConditions = some v := by
  rcases hsp : alookup i.id p.lookAheadInfoSavePoints with _ | sp
  · rcases hcfi : alookup i.id p.conditionsForInfos with _ | conds
    · simp only [handleInfo, hsp, hcfi] at h
      exact h
    · simp only [handleInfo, hsp, hcfi] at h
      have h' := reevalConds_resolvedConditions_mono _ _ k v h
      exact h'
  · simp only [handleInfo, hsp, updateStateToSavePoint_resolvedConditions] at h
    exact h

/-- `handle_condition` memoizes the resolver's result in
`resolved_conditions` exactly when `is_stored` — including a `None` result —
and the look-ahead consumption rewind does not undo the memoization. -/
theorem handleCondition_resolvedConditions (c : CondM) (nn : Option PrintNode) (p : PState) :
    (handleCondition c nn p).resolvedConditions =
      (if c.isStored then
        ainsert c.id (evalResolver c.resolver (getWriterInfoP p) p).1 p.resolvedConditions
       else p.resolvedConditions) := by
  have hreg := registerDependentInfos_frame c c.dependentInfos p
  have hwi : getWriterInfoP (registerDependentInfos c c.dependentInfos p) = getWriterInfoP p := by
    simp [getWriterInfoP, hreg.2.1]
  rcases hr : c.resolver with v | n <;>
    cases hst : c.isStored <;>
      simp only [handleCondition, hr, hst, evalResolver, hwi, Bool.false_eq_true,
        if_true, if_false, ite_true, ite_false] <;>
      repeat'
        first
        | rw [updateStateToSavePoint_resolvedConditions]
        | split
        | simp [hreg.1]

/-- Condition for the C6 counterexample: stored, resolving to `Some(true)`. -/
def cC6 : CondM := CondM.mk 100 "c6cond" true (Resolver.const (some true)) none none []

/-- Instruction graph for the C6 counterexample: text, a space-or-newline that
records a possible-new-line save-point, the stored condition, then a text that
overflows `max_width = 10` and rewinds to the save-point — a save-point
created *before* the condition was resolved. -/
def gC6 : Option PrintNode :=
  buildNodes [strItem "aaaaaaaa", PrintItem.signal Signal.spaceOrNewLine,
    PrintItem.condition cC6, strItem "bbbb"]

/-- C6 counterexample theorem: after step 3 the stored condition is memoized;
step 4 rewinds to the save-point taken at the space-or-newline (the writer is
rolled back before `"bbbb"` and a newline is emitted at the save position,
with the driver back at the condition node) — yet `resolved_conditions` still
holds the entry, which the claim says the rewind must have invalidated. -/
theorem resolvedConditions_counterexample :
    (runSteps 3 (initPState gC6 10 2)).resolvedConditions = [(100, some true)] ∧
    (runSteps 4 (initPState gC6 10 2)).writer.items =
      [WriteItem.newLine, WriteItem.text "aaaaaaaa" 8] ∧
    alookup 100 (runSteps 4 (initPState gC6 10 2)).resolvedConditions = some (some true) := by
  refine ⟨by decide, by decide, by decide⟩

/-- C6 (amended): `resolved_conditions[id]` is set to the resolver's result —
whatever `Option` value it is, including `None` — exactly when the condition
with that id is handled with `is_stored`; rewinding (restoring a save-point)
never removes or alters entries; entries are removed only when an
info-triggered re-evaluation of a stored condition returns `None`; no other
handler changes the table. -/
theorem resolvedConditions_lifecycle (p : PState) :
    (∀ sp b, (updateStateToSavePoint sp b p).resolvedConditions = p.resolvedConditions) ∧
    (∀ sig, (handleSignal sig p).resolvedConditions = p.resolvedConditions) ∧
    (∀ t, (handleString t p).resolvedConditions = p.resolvedConditions) ∧
    (∀ q nn, (handleRcPath q nn p).resolvedConditions = p.resolvedConditions) ∧
    (∀ c nn, (handleCondition c nn p).resolvedConditions =
      (if c.isStored then
        ainsert c.id (evalResolver c.resolver (getWriterInfoP p) p).1 p.resolvedConditions
       else p.resolvedConditions)) ∧
    (∀ i k v, alookup k (handleInfo i p).resolvedConditions = some v →
      alookup k p.resolvedConditions = some v) := by
  refine ⟨?_, ?_, ?_, ?_, ?_, ?_⟩
  · intro sp b
    exact updateStateToSavePoint_resolvedConditions sp b p
  · intro sig
    cases sig <;>
      simp only [handleSignal, writeNewLineP, writeTextP, markPossibleNewLineIfAble] <;>
      repeat'
        first
        | rw [updateStateToSavePoint_resolvedConditions]
        | split
        | rfl
  · intro t
    unfold handleString
    repeat'
      first
      | rw [updateStateToSavePoint_resolvedConditions]
      | split
      | simp [writeTextP]
  · intro q nn
    rfl
  · intro c nn
    exact handleCondition_resolvedConditions c nn p
  · intro i k v h
    exact handleInfo_resolvedConditions_mono i p k v h

/-- State for the C6 witness: a previously memoized entry for id 100. -/
def pC6w : PState :=
  { initPState none 10 2 with resolvedConditions := [(100, some true)] }

/-- Info for the C6 witness (no look-ahead entry, no registered conditions). -/
def iC6w : InfoM := { id := 7, name := "c6info" }

/-- C6 witness: handling an unrelated info leaves the memoized entry for
id 100 observable, by the removal-only law for `handle_info`. -/
theorem resolvedConditions_lifecycle_witness :
    alookup 100 pC6w.resolvedConditions = some (some true) :=
  (resolvedConditions_lifecycle pC6w).2.2.2.2.2 iC6w 100 (some true) (by decide)

/-! ## C2 — no newline inside force-no-newlines regions -/

mutual

/-- Hereditary well-formedness of a save-point for the no-newline argument:
its own enclosing possible-new-line save-point is good (and was taken with
newlines allowed), and so is every save-point in its look-ahead tables. -/
def spGood : SavePoint → Prop
  | .mk _ _ _ pos _ condTable infoTable _ =>
    optPosGood pos ∧ tabGood condTable ∧ tabGood infoTable

/-- A possible-new-line save-point slot is good when empty, or when it holds a
save-point captured at force-no-newlines depth zero that is itself good. -/
def optPosGood : Option SavePoint → Prop
  | none => True
  | some sp => sp.forceNoNewlinesDepth = 0 ∧ spGood sp

/-- All save-points of a look-ahead table are good. -/
def tabGood : List (Nat × SavePoint) → Prop
  | [] => True
  | (_, sp) :: rest => spGood sp ∧ tabGood rest

end

/-- A plain save-point option is good when empty or holding a good
save-point. -/
def optSpGood : Option SavePoint → Prop
  | none => True
  | some sp => spGood sp

/-- All save-points registered in `conditions_for_infos` are good. -/
def cfiGood (m : List (Nat × List (Nat × (CondM × SavePoint)))) : Prop :=
  ∀ e ∈ m, ∀ e2 ∈ e.2, spGood e2.2.2

/-- The driver-state part of the C2 invariant: every save-point reachable
from the live state is good, and the live possible-new-line save-point was
captured with newlines allowed. -/
def stateGood (p : PState) : Prop :=
  optPosGood p.possibleNewLineSavePoint ∧
  tabGood p.lookAheadConditionSavePoints ∧
  tabGood p.lookAheadInfoSavePoints ∧
  cfiGood p.conditionsForInfos ∧
  optSpGood p.resolvingSavePoint

/-- The ghost-log part of the C2 invariant: every newline that was not
inserted for an expect-new-line mark was emitted at force-no-newlines depth
zero. -/
def logOk (l : List NewLineEvent) : Prop :=
  ∀ e ∈ l, e.fromExpect = false → e.depth = 0

/-- The C2 run invariant. -/
def printerInv (p : PState) : Prop :=
  stateGood p ∧ logOk p.newLineLog

theorem spGood_mk (a b : Nat) (w : WriterState) (pos : Option SavePoint)
    (n : Option PrintNode) (ct it : List (Nat × SavePoint)) (st : List (Option PrintNode)) :
    spGood (SavePoint.mk a b w pos n ct it st) ↔ (optPosGood pos ∧ tabGood ct ∧ tabGood it) := by
  rw [spGood]

theorem tabGood_lookup {m : List (Nat × SavePoint)} (h : tabGood m) {k : Nat} {sp : SavePoint}
    (hl : alookup k m = some sp) : spGood sp := by
  induction m with
  | nil => simp [alookup] at hl
  | cons hd tl ih =>
    rcases hd with ⟨k', sp'⟩
    rw [tabGood] at h
    rw [alookup] at hl
    by_cases hk : k' = k
    · rw [if_pos hk] at hl
      cases hl
      exact h.1
    · rw [if_neg hk] at hl
      exact ih h.2 hl

theorem tabGood_aremove {m : List (Nat × SavePoint)} (h : tabGood m) (k : Nat) :
    tabGood (aremove k m) := by
  induction m with
  | nil => exact h
  | cons hd tl ih =>
    rcases hd with ⟨k', sp'⟩
    rw [tabGood] at h
    rw [aremove]
    by_cases hk : k' = k
    · rw [if_pos hk]
      exact ih h.2
    · rw [if_neg hk]
      rw [tabGood]
      exact ⟨h.1, ih h.2⟩

theorem tabGood_ainsert {m : List (Nat × SavePoint)} (h : tabGood m) {sp : SavePoint}
    (hsp : spGood sp) (k : Nat) : tabGood (ainsert k sp m) := by
  rw [ainsert, tabGood]
  exact ⟨hsp, tabGood_aremove h k⟩

theorem createSavePoint_good {p : PState} (h : stateGood p) (nn : Option PrintNode) :
    spGood (createSavePoint nn p) := by
  rw [createSavePoint, spGood_mk]
  exact ⟨h.1, h.2.1, h.2.2.1⟩

theorem getSavePointForRestoringCondition_good {p : PState} (h : stateGood p) :
    spGood (getSavePointForRestoringCondition p) := by
  rw [getSavePointForRestoringCondition]
  rcases hr : p.resolvingSavePoint with _ | sp
  · exact createSavePoint_good h _
  · have := h.2.2.2.2
    rw [hr] at this
    exact this

theorem optPosGood_none : optPosGood none := by
  rw [optPosGood]
  exact trivial

theorem tabGood_nil : tabGood ([] : List (Nat × SavePoint)) := by
  rw [tabGood]
  exact trivial

theorem writeNewLineP_inv {p : PState} (h : printerInv p)
    (hd : p.forceNoNewlinesDepth = 0) : printerInv (writeNewLineP p) := by
  refine ⟨⟨optPosGood_none, h.1.2.1, h.1.2.2.1, h.1.2.2.2.1, h.1.2.2.2.2⟩, ?_⟩
  intro e he hfe
  cases he with
  | head => simpa using hd
  | tail _ hmem => exact h.2 e hmem hfe

theorem writeTextP_inv {p : PState} (h : printerInv p) (t : StringContainer) :
    printerInv (writeTextP t p) := by
  rw [writeTextP]
  by_cases hflag : p.writer.expectNewLineNext
  · rw [if_pos hflag]
    refine ⟨h.1, ?_⟩
    intro e he hfe
    cases he with
    | head => simp at hfe
    | tail _ hmem => exact h.2 e hmem hfe
  · rw [if_neg hflag]
    exact h

theorem updateStateToSavePoint_inv {p : PState} {sp : SavePoint} (h : printerInv p)
    (hsp : spGood sp) (b : Bool) (hb : b = true → sp.forceNoNewlinesDepth = 0) :
    printerInv (updateStateToSavePoint sp b p) := by
  rcases sp with ⟨a, fd, w, pos, n, ct, it, st⟩
  rw [spGood_mk] at hsp
  cases b
  · refine ⟨⟨?_, hsp.2.1, hsp.2.2, h.1.2.2.2.1, h.1.2.2.2.2⟩, h.2⟩
    exact hsp.1
  · have hfd : fd = 0 := by
      have := hb rfl
      rw [SavePoint.forceNoNewlinesDepth] at this
      exact this
    refine ⟨⟨optPosGood_none, hsp.2.1, hsp.2.2, h.1.2.2.2.1, h.1.2.2.2.2⟩, ?_⟩
    intro e he hfe
    cases he with
    | head => simpa [SavePoint.forceNoNewlinesDepth] using hfd
    | tail _ hmem => exact h.2 e hmem hfe

theorem markPossibleNewLineIfAble_inv {p : PState} (h : printerInv p)
    (hd : p.forceNoNewlinesDepth = 0) : printerInv (markPossibleNewLineIfAble p) := by
  rw [markPossibleNewLineIfAble]
  split
  · exact h
  · refine ⟨⟨?_, h.1.2.1, h.1.2.2.1, h.1.2.2.2.1, h.1.2.2.2.2⟩, h.2⟩
    rw [optPosGood]
    constructor
    · rw [createSavePoint, SavePoint.forceNoNewlinesDepth]
      exact hd
    · exact createSavePoint_good h.1 _

theorem allowNewLinesP_depth {p : PState} (h : allowNewLinesP p = true) :
    p.forceNoNewlinesDepth = 0 := by
  rw [allowNewLinesP] at h
  exact of_decide_eq_true h

theorem handleSignal_inv {p : PState} (h : printerInv p) (sig : Signal) :
    printerInv (handleSignal sig p) := by
  cases sig
  case newLine =>
    rw [handleSignal]
    split
    · next hallow => exact writeNewLineP_inv h (allowNewLinesP_depth hallow)
    · exact h
  case tab => exact ⟨h.1, h.2⟩
  case expectNewLine =>
    exact ⟨⟨optPosGood_none, h.1.2.1, h.1.2.2.1, h.1.2.2.2.1, h.1.2.2.2.2⟩, h.2⟩
  case possibleNewLine =>
    rw [handleSignal]
    split
    · next hallow => exact markPossibleNewLineIfAble_inv h (allowNewLinesP_depth hallow)
    · exact h
  case spaceOrNewLine =>
    rw [handleSignal]
    split
    · next hallow =>
      have hd := allowNewLinesP_depth hallow
      have hinv : printerInv { p with possibleNewLineSavePoint := none } :=
        ⟨⟨optPosGood_none, h.1.2.1, h.1.2.2.1, h.1.2.2.2.1, h.1.2.2.2.2⟩, h.2⟩
      split
      · split
        · exact writeNewLineP_inv hinv hd
        · next sp hpos =>
          split
          · exact writeNewLineP_inv hinv hd
          · have hgood := h.1.1
            rw [hpos, optPosGood] at hgood
            exact updateStateToSavePoint_inv hinv hgood.2 true (fun _ => hgood.1)
      · have hm := markPossibleNewLineIfAble_inv h hd
        exact ⟨hm.1, hm.2⟩
    · exact ⟨h.1, h.2⟩
  case queueStartIndent => exact ⟨h.1, h.2⟩
  case startIndent => exact ⟨h.1, h.2⟩
  case finishIndent => exact ⟨h.1, h.2⟩
  case startNewLineGroup => exact ⟨h.1, h.2⟩
  case finishNewLineGroup => exact ⟨h.1, h.2⟩
  case singleIndent => exact ⟨h.1, h.2⟩
  case startIgnoringIndent => exact ⟨h.1, h.2⟩
  case finishIgnoringIndent => exact ⟨h.1, h.2⟩
  case startForceNoNewLines => exact ⟨h.1, h.2⟩
  case finishForceNoNewLines => exact ⟨h.1, h.2⟩
  case spaceIfNotTrailing => exact ⟨h.1, h.2⟩

theorem optSpGood_none : optSpGood none := by
  rw [optSpGood]
  exact trivial

theorem alookup_mem {α : Type} {k : Nat} {v : α} {m : List (Nat × α)}
    (h : alookup k m = some v) : (k, v) ∈ m := by
  induction m with
  | nil => simp [alookup] at h
  | cons hd tl ih =>
    rcases hd with ⟨k', v'⟩
    rw [alookup] at h
    by_cases hk : k' = k
    · rw [if_pos hk] at h
      cases h
      subst hk
      exact List.mem_cons_self _ _
    · rw [if_neg hk] at h
      exact List.mem_cons_of_mem _ (ih h)

theorem mem_aremove {α : Type} {e : Nat × α} {k : Nat} {m : List (Nat × α)}
    (h : e ∈ aremove k m) : e ∈ m := by
  induction m with
  | nil => exact h
  | cons hd tl ih =>
    rcases hd with ⟨k', v'⟩
    rw [aremove] at h
    by_cases hk : k' = k
    · rw [if_pos hk] at h
      exact List.mem_cons_of_mem _ (ih h)
    · rw [if_neg hk] at h
      rcases List.mem_cons.mp h with h | h
      · exact h ▸ List.mem_cons_self _ _
      · exact List.mem_cons_of_mem _ (ih h)

theorem mem_ainsert {α : Type} {e : Nat × α} {k : Nat} {v : α} {m : List (Nat × α)}
    (h : e ∈ ainsert k v m) : e = (k, v) ∨ e ∈ m := by
  rw [ainsert] at h
  rcases List.mem_cons.mp h with h | h
  · exact Or.inl h
  · exact Or.inr (mem_aremove h)

theorem cfiGood_lookup {m : List (Nat × List (Nat × (CondM × SavePoint)))}
    (h : cfiGood m) {k : Nat} {inner : List (Nat × (CondM × SavePoint))}
    (hl : alookup k m = some inner) : ∀ e2 ∈ inner, spGood e2.2.2 :=
  h (k, inner) (alookup_mem hl)

theorem cfiGood_insert {m : List (Nat × List (Nat × (CondM × SavePoint)))}
    (h : cfiGood m) {iid cid : Nat} {c : CondM} {sp : SavePoint} (hsp : spGood sp) :
    cfiGood (cfiInsert iid cid (c, sp) m) := by
  intro e he e2 he2
  unfold cfiInsert at he
  rcases hl : alookup iid m with _ | inner <;> rw [hl] at he
  · rcases mem_ainsert he with he | he
    · subst he
      simp only at he2
      rcases mem_ainsert he2 with he2 | he2
      · subst he2
        exact hsp
      · simp at he2
    · exact h e he e2 he2
  · rcases mem_ainsert he with he | he
    · subst he
      simp only at he2
      rcases mem_ainsert he2 with he2 | he2
      · subst he2
        exact hsp
      · exact h (iid, inner) (alookup_mem hl) e2 he2
    · exact h e he e2 he2

theorem reevalConds_inv (conds : List (Nat × (CondM × SavePoint))) {p : PState}
    (hc : ∀ e ∈ conds, spGood e.2.2) (h : printerInv p) :
    printerInv (reevalConds conds p) := by
  induction conds generalizing p with
  | nil => exact h
  | cons hd tl ih =>
    rcases hd with ⟨j, c, sp⟩
    have hsp : spGood sp := hc (j, c, sp) (List.mem_cons_self _ _)
    have htl : ∀ e ∈ tl, spGood e.2.2 := fun e he => hc e (List.mem_cons_of_mem _ he)
    have hP : printerInv { p with resolvingSavePoint := none } :=
      ⟨⟨h.1.1, h.1.2.1, h.1.2.2.1, h.1.2.2.2.1, optSpGood_none⟩, h.2⟩
    rw [reevalConds]
    rcases hlook : alookup c.id p.resolvedConditions with _ | ov
    · exact ih htl h
    · rcases ov with _ | sv
      · exact ih htl h
      · simp only [evalResolver_snd]
        rcases hval : (evalResolver c.resolver sp.writerState.getWriterInfo
            { p with resolvingSavePoint := some sp }).1 with _ | cv
        · have hrem : printerInv
              { p with
                resolvingSavePoint := none
                resolvedConditions := aremove c.id p.resolvedConditions } :=
            ⟨⟨h.1.1, h.1.2.1, h.1.2.2.1, h.1.2.2.2.1, optSpGood_none⟩, h.2⟩
          have hgoal := ih htl hrem
          exact hgoal
        · simp only [ne_eq]
          by_cases hcv : cv = sv
          · rw [if_neg (by simp [hcv])]
            exact ih htl hP
          · rw [if_pos hcv]
            exact updateStateToSavePoint_inv hP hsp false (fun hfalse => nomatch hfalse)

theorem handleString_inv {p : PState} (h : printerInv p) (t : StringContainer) :
    printerInv (handleString t p) := by
  rw [handleString]
  split
  · next sp hpos =>
    split
    · have hgood := h.1.1
      rw [hpos, optPosGood] at hgood
      have hinv : printerInv { p with possibleNewLineSavePoint := none } :=
        ⟨⟨optPosGood_none, h.1.2.1, h.1.2.2.1, h.1.2.2.2.1, h.1.2.2.2.2⟩, h.2⟩
      exact updateStateToSavePoint_inv hinv hgood.2 true (fun _ => hgood.1)
    · exact writeTextP_inv h t
  · exact writeTextP_inv h t

theorem handleInfo_inv {p : PState} (h : printerInv p) (i : InfoM) :
    printerInv (handleInfo i p) := by
  have hIns : printerInv
      { p with resolvedInfos := ainsert i.id (getWriterInfoP p) p.resolvedInfos } :=
    ⟨⟨h.1.1, h.1.2.1, h.1.2.2.1, h.1.2.2.2.1, h.1.2.2.2.2⟩, h.2⟩
  rcases hm : alookup i.id p.lookAheadInfoSavePoints with _ | sp
  · rcases hcfi : alookup i.id p.conditionsForInfos with _ | conds
    · simp only [handleInfo, hm, hcfi]
      exact hIns
    · simp only [handleInfo, hm, hcfi]
      exact reevalConds_inv conds (cfiGood_lookup h.1.2.2.2.1 hcfi) hIns
  · simp only [handleInfo, hm]
    have hsp : spGood sp := tabGood_lookup h.1.2.2.1 hm
    have hbase : printerInv
        { p with
          resolvedInfos := ainsert i.id (getWriterInfoP p) p.resolvedInfos
          lookAheadInfoSavePoints := aremove i.id p.lookAheadInfoSavePoints } :=
      ⟨⟨h.1.1, h.1.2.1, tabGood_aremove h.1.2.2.1 i.id, h.1.2.2.2.1, h.1.2.2.2.2⟩, h.2⟩
    exact updateStateToSavePoint_inv hbase hsp false (fun hfalse => nomatch hfalse)

theorem registerDependentInfos_inv (c : CondM) (infos : List InfoM) {p : PState}
    (h : printerInv p) : printerInv (registerDependentInfos c infos p) := by
  induction infos generalizing p with
  | nil => exact h
  | cons hd tl ih =>
    have hstep : printerInv
        { p with conditionsForInfos :=
            cfiInsert hd.id c.id (c, getSavePointForRestoringCondition p) p.conditionsForInfos } :=
      ⟨⟨h.1.1, h.1.2.1, h.1.2.2.1,
        cfiGood_insert h.1.2.2.2.1 (getSavePointForRestoringCondition_good h.1),
        h.1.2.2.2.2⟩, h.2⟩
    have hgoal := ih hstep
    simpa [registerDependentInfos, List.foldl] using hgoal

theorem handleCondition_inv {p : PState} (h : printerInv p) (c : CondM)
    (nn : Option PrintNode) : printerInv (handleCondition c nn p) := by
  have hreg := registerDependentInfos_inv c c.dependentInfos h
  cases hst : c.isStored <;>
    simp only [handleCondition, evalResolver_snd, hst, Bool.false_eq_true,
      if_true, if_false, ite_true, ite_false]
  · split
    · next sp hla hval =>
      have hbase : printerInv
          { registerDependentInfos c c.dependentInfos p with
            lookAheadConditionSavePoints :=
              aremove c.id (registerDependentInfos c c.dependentInfos p).lookAheadConditionSavePoints } :=
        ⟨⟨hreg.1.1, tabGood_aremove hreg.1.2.1 c.id, hreg.1.2.2.1, hreg.1.2.2.2.1,
          hreg.1.2.2.2.2⟩, hreg.2⟩
      exact updateStateToSavePoint_inv hbase (tabGood_lookup hreg.1.2.1 hla) false
        (fun hf => nomatch hf)
    · split
      · split
        · exact ⟨hreg.1, hreg.2⟩
        · exact hreg
      · split
        · exact ⟨hreg.1, hreg.2⟩
        · exact hreg
  · split
    · next sp hla hval =>
      have hbase : printerInv
          { registerDependentInfos c c.dependentInfos p with
            resolvedConditions :=
              ainsert c.id
                ((evalResolver c.resolver (getWriterInfoP (registerDependentInfos c c.dependentInfos p))
                  (registerDependentInfos c c.dependentInfos p)).1)
                (registerDependentInfos c c.dependentInfos p).resolvedConditions
            lookAheadConditionSavePoints :=
              aremove c.id (registerDependentInfos c c.dependentInfos p).lookAheadConditionSavePoints } :=
        ⟨⟨hreg.1.1, tabGood_aremove hreg.1.2.1 c.id, hreg.1.2.2.1, hreg.1.2.2.2.1,
          hreg.1.2.2.2.2⟩, hreg.2⟩
      exact updateStateToSavePoint_inv hbase (tabGood_lookup hreg.1.2.1 hla) false
        (fun hf => nomatch hf)
    · have hQ : printerInv
          { registerDependentInfos c c.dependentInfos p with
            resolvedConditions :=
              ainsert c.id
                ((evalResolver c.resolver (getWriterInfoP (registerDependentInfos c c.dependentInfos p))
                  (registerDependentInfos c c.dependentInfos p)).1)
                (registerDependentInfos c c.dependentInfos p).resolvedConditions } :=
        ⟨⟨hreg.1.1, hreg.1.2.1, hreg.1.2.2.1, hreg.1.2.2.2.1, hreg.1.2.2.2.2⟩, hreg.2⟩
      split
      · split
        · exact ⟨hQ.1, hQ.2⟩
        · exact hQ
      · split
        · exact ⟨hQ.1, hQ.2⟩
        · exact hQ

theorem handlePrintNode_inv {p : PState} (h : printerInv p) (n : PrintNode) :
    printerInv (handlePrintNode n p) := by
  rcases n with ⟨item, nxt⟩
  rcases item with t | sig | i | c | path
  · exact handleString_inv h t
  · exact handleSignal_inv h sig
  · exact handleInfo_inv h i
  · exact handleCondition_inv h c _
  · exact ⟨h.1, h.2⟩

theorem stepP_inv {p : PState} (h : printerInv p) : printerInv (stepP p) := by
  simp only [stepP]
  split
  · exact h
  · next node heq =>
    have h1 := handlePrintNode_inv h node
    split
    · exact ⟨h1.1, h1.2⟩
    · split
      · exact ⟨h1.1, h1.2⟩
      · exact ⟨h1.1, h1.2⟩

theorem runSteps_inv (fuel : Nat) {p : PState} (h : printerInv p) :
    printerInv (runSteps fuel p) := by
  induction fuel generalizing p with
  | zero => exact h
  | succ n ih =>
    rw [runSteps]
    rcases p.currentNode with _ | node
    · exact h
    · exact ih (stepP_inv h)

theorem initPState_inv (startNode : Option PrintNode) (mw iw : Nat) :
    printerInv (initPState startNode mw iw) := by
  refine ⟨⟨optPosGood_none, tabGood_nil, tabGood_nil, ?_, optSpGood_none⟩, ?_⟩
  · intro e he
    simp [initPState] at he
  · intro e he
    simp [initPState] at he

/-- Instruction graph for the C2 counterexample: a force-no-newlines region
containing an `ExpectNewLine` followed by text — exactly the shape
`parse_js_like_comment_line` emits (`with_no_new_lines` around a comment that
ends with `ExpectNewLine`), with text following inside the region. -/
def gC2 : Option PrintNode :=
  buildNodes [PrintItem.signal Signal.startForceNoNewLines,
    PrintItem.signal Signal.expectNewLine, strItem "a",
    PrintItem.signal Signal.finishForceNoNewLines]

/-- C2 counterexample theorem: running `gC2` emits a `NewLine` write item
while the force-no-newlines depth is 1 — i.e. strictly inside the
`StartForceNoNewLines`/`FinishForceNoNewLines` region (the depth counters are
balanced, ending at 0) — because `ExpectNewLine` is honoured unconditionally
(`handle_signal` marks the writer without consulting `allow_new_lines`) and
the writer inserts the newline before the next text. The newline even
survives into the final stream. -/
theorem forceNoNewLines_counterexample :
    (runSteps 10 (initPState gC2 10 2)).newLineLog =
      [{ depth := 1, fromExpect := true }] ∧
    (runSteps 10 (initPState gC2 10 2)).writer.items.reverse =
      [WriteItem.newLine, WriteItem.text "a" 1] ∧
    (runSteps 10 (initPState gC2 10 2)).forceNoNewlinesDepth = 0 := by
  refine ⟨by decide, by decide, by decide⟩

/-- C2 (amended): in any printer run, every `NewLine` write item emitted while
the force-no-newlines depth is positive (i.e. inside a
`StartForceNoNewLines`/`FinishForceNoNewLines` region) is one the writer
inserted to honour a pending expect-new-line mark set by an `ExpectNewLine`
signal; `NewLine`, `SpaceOrNewLine`, `PossibleNewLine` and `String` overflow
handling never emit a newline inside such a region, regardless of width. -/
theorem forceNoNewLines_region_spec (fuel : Nat) (startNode : Option PrintNode)
    (mw iw : Nat) :
    ∀ e ∈ (runSteps fuel (initPState startNode mw iw)).newLineLog,
      e.fromExpect = false → e.depth = 0 :=
  (runSteps_inv fuel (initPState_inv startNode mw iw)).2

/-- C2 witness: the amended region law applied to a graph with one plain
newline, whose single logged event was emitted at depth 0. -/
theorem forceNoNewLines_region_spec_witness :
    ({ depth := 0, fromExpect := false } : NewLineEvent).depth = 0 :=
  forceNoNewLines_region_spec 5 (buildNodes [PrintItem.signal Signal.newLine]) 10 2
    { depth := 0, fromExpect := false } (by decide) rfl

/-! ## C9 — parse_string -/

/-- Prepend a char to the first segment of a split (creating one if none). -/
def consHead (c : Char) : List (List Char) → List (List Char)
  | [] => [[c]]
  | h :: t => (c :: h) :: t

/-- Rust `str::split(sep)` over the chars of a string: the separated segments
(always at least one, possibly empty). -/
def splitOn (sep : Char) : List Char → List (List Char)
  | [] => [[]]
  | c :: rest =>
    if c = sep then [] :: splitOn sep rest else consHead c (splitOn sep rest)

/-- Strip one trailing carriage return, as Rust `lines()` does to every line
that was terminated by a newline. -/
def stripTrailingCR (l : List Char) : List Char :=
  if l.getLast? = some '\r' then l.dropLast else l

/-- Map a function over every element but the last. -/
def mapInit (f : List Char → List Char) : List (List Char) → List (List Char)
  | [] => []
  | [x] => [x]
  | x :: y :: t => f x :: mapInit f (y :: t)

/-- Rust `str::lines()` over the chars of a string: split at `'\n'`, drop the
trailing empty segment produced by a final newline, and strip one `'\r'` from
every newline-terminated line. -/
def rustLines (s : List Char) : List (List Char) :=
  match s with
  | [] => []
  | _ :: _ =>
    if s.getLast? = some '\n' then (mapInit stripTrailingCR (splitOn '\n' s)).dropLast
    else mapInit stripTrailingCR (splitOn '\n' s)

/-- `push_str` of a possibly-empty segment: empty segments produce no item. -/
def strOptItem (seg : List Char) : List PrintItem :=
  if seg = [] then []
  else [PrintItem.str { text := String.mk seg, charCount := seg.length }]

/-- The tab-separated continuation of `parse_string_line`: a `Tab` signal
before every segment after the first. -/
def tabSegsItems : List (List Char) → List PrintItem
  | [] => []
  | seg :: rest => PrintItem.signal Signal.tab :: strOptItem seg ++ tabSegsItems rest

/-- `parse_string_line` (helpers.rs): split the line on tabs, emit `Tab`
signals between the segments and the non-empty segments as strings. -/
def parse_string_line (line : List Char) : List PrintItem :=
  match splitOn '\t' line with
  | [] => []
  | first :: rest => strOptItem first ++ tabSegsItems rest

/-- The newline-separated continuation of `parse_string_lines`: a `NewLine`
signal before every line after the first. -/
def nlLinesItems : List (List Char) → List PrintItem
  | [] => []
  | l :: rest => PrintItem.signal Signal.newLine :: parse_string_line l ++ nlLinesItems rest

/-- `parse_string_lines` (helpers.rs): iterate `text.lines()` with a `NewLine`
signal between lines, and add back the final `NewLine` that `lines()` eats
when the text ends with a newline. -/
def parse_string_lines (s : List Char) : List PrintItem :=
  (match rustLines s with
   | [] => []
   | first :: rest => parse_string_line first ++ nlLinesItems rest) ++
  (if s.getLast? = some '\n' then [PrintItem.signal Signal.newLine] else [])

/-- `parse_string` (helpers.rs). -/
def parse_string (s : List Char) : List PrintItem :=
  parse_string_lines s

/-- Scan of the claim's reading: accumulate the current run (reversed),
flushing it as a `String` item at each `'\n'` / `'\t'` / end of input. -/
def specItemsAux (acc : List Char) : List Char → List PrintItem
  | [] => strOptItem acc.reverse
  | c :: rest =>
    if c = '\n' then
      strOptItem acc.reverse ++ PrintItem.signal Signal.newLine :: specItemsAux [] rest
    else if c = '\t' then
      strOptItem acc.reverse ++ PrintItem.signal Signal.tab :: specItemsAux [] rest
    else specItemsAux (c :: acc) rest

/-- The claim's reading of `parse_string`: every `'\n'` becomes a `NewLine`
signal, every `'\t'` a `Tab` signal, and the maximal runs of other characters
between them appear in order as `String` items (empty runs produce none). -/
def parse_string_claimed (s : List Char) : List PrintItem :=
  specItemsAux [] s

/-- Drop every carriage return that immediately precedes a line feed (the
`\r\n` line endings recognised by Rust `lines()`). -/
def removeCRBeforeLF : List Char → List Char
  | [] => []
  | c :: rest =>
    if c = '\r' ∧ rest.head? = some '\n' then removeCRBeforeLF rest
    else c :: removeCRBeforeLF rest

/-- The amended reading of `parse_string`: the claim's interleaving, applied
after dropping each `'\r'` that immediately precedes a `'\n'`. -/
def parse_string_amended (s : List Char) : List PrintItem :=
  specItemsAux [] (removeCRBeforeLF s)

/-- Printable shape of a print item, used to compare item lists without a
decidable equality on the full instruction graph. -/
def itemRepr : PrintItem → String
  | PrintItem.str t => "s:" ++ t.text
  | PrintItem.signal Signal.newLine => "nl"
  | PrintItem.signal Signal.tab => "tab"
  | PrintItem.signal _ => "sig"
  | PrintItem.infoItem _ => "info"
  | PrintItem.condition _ => "cond"
  | PrintItem.rcPath _ => "rc"

/-- C9 counterexample theorem: on `"a\r\nb"` the code (via Rust `lines()`)
drops the `'\r'` of the `\r\n` line ending, producing the string item `"a"`,
while the claim's maximal-run reading requires the run `"a\r"` to appear
verbatim. -/
theorem parse_string_counterexample :
    (parse_string ['a', '\r', '\n', 'b']).map itemRepr = ["s:a", "nl", "s:b"] ∧
    (parse_string_claimed ['a', '\r', '\n', 'b']).map itemRepr = ["s:a\r", "nl", "s:b"] ∧
    (parse_string ['a', '\r', '\n', 'b']).map itemRepr ≠
      (parse_string_claimed ['a', '\r', '\n', 'b']).map itemRepr := by
  refine ⟨by decide, by decide, by decide⟩

/-! ### C9 proof infrastructure: list utilities -/

theorem getLast?_cons_ne_nil {c : Char} {l : List Char} (h : l ≠ []) :
    (c :: l).getLast? = l.getLast? := by
  cases l with
  | nil => exact absurd rfl h
  | cons d t => rfl

theorem dropLast_cons_ne_nil {α : Type} {h : α} {t : List α} (ht : t ≠ []) :
    (h :: t).dropLast = h :: t.dropLast := by
  cases t with
  | nil => exact absurd rfl ht
  | cons a b => rfl

theorem mapInit_cons {f : List Char → List Char} {a : List Char}
    {L : List (List Char)} (hL : L ≠ []) :
    mapInit f (a :: L) = f a :: mapInit f L := by
  cases L with
  | nil => exact absurd rfl hL
  | cons x t => rfl

theorem splitOn_ne_nil (sep : Char) (s : List Char) : splitOn sep s ≠ [] := by
  cases s with
  | nil => simp [splitOn]
  | cons c rest =>
    rw [splitOn]
    split
    · simp
    · cases hs : splitOn sep rest with
      | nil => simp [consHead]
      | cons h t => simp [consHead]

theorem consHead_ne_nil (c : Char) (L : List (List Char)) : consHead c L ≠ [] := by
  cases L <;> simp [consHead]

/-- A string ending in the separator splits into at least two segments. -/
theorem splitOn_getLast_sep {sep : Char} :
    ∀ {s : List Char}, s.getLast? = some sep →
      ∃ h t, splitOn sep s = h :: t ∧ t ≠ [] := by
  intro s
  induction s with
  | nil => intro h; simp at h
  | cons c rest ih =>
    intro hlast
    cases rest with
    | nil =>
      simp only [List.getLast?_singleton, Option.some.injEq] at hlast
      subst hlast
      refine ⟨[], [[]], ?_, by simp⟩
      simp [splitOn]
    | cons d t =>
      have hne : (d :: t) ≠ [] := by simp
      rw [getLast?_cons_ne_nil hne] at hlast
      obtain ⟨h, u, hsplit, hu⟩ := ih hlast
      rw [splitOn]
      by_cases hc : c = sep
      · rw [if_pos hc]
        exact ⟨[], splitOn sep (d :: t), rfl, by simp [hsplit]⟩
      · rw [if_neg hc, hsplit]
        exact ⟨c :: h, u, by simp [consHead], hu⟩

/-- The first segment of a split is empty (with later segments following)
only when the string starts with the separator. -/
theorem splitOn_head_empty {sep : Char} {s : List Char} {t : List (List Char)}
    (h : splitOn sep s = [] :: t) (ht : t ≠ []) : s.head? = some sep := by
  cases s with
  | nil =>
    rw [splitOn] at h
    cases h
    exact absurd rfl ht
  | cons c rest =>
    rw [splitOn] at h
    split at h
    · next hc => simp [hc]
    · exfalso
      cases hs : splitOn sep rest with
      | nil => rw [hs] at h; simp [consHead] at h
      | cons a b => rw [hs] at h; simp [consHead] at h

theorem removeCR_ne_nil : ∀ {s : List Char}, s ≠ [] → removeCRBeforeLF s ≠ [] := by
  intro s
  induction s with
  | nil => intro h; exact absurd rfl h
  | cons c rest ih =>
    intro _
    rw [removeCRBeforeLF]
    split
    · next hdrop =>
      apply ih
      intro hr
      rw [hr] at hdrop
      simp at hdrop
    · simp

theorem removeCR_getLast (s : List Char) :
    (removeCRBeforeLF s).getLast? = s.getLast? := by
  induction s with
  | nil => rfl
  | cons c rest ih =>
    rw [removeCRBeforeLF]
    split
    · next hdrop =>
      have hne : rest ≠ [] := by
        intro hr
        rw [hr] at hdrop
        simp at hdrop
      rw [ih, getLast?_cons_ne_nil hne]
    · cases rest with
      | nil => rfl
      | cons d t =>
        have hne : (d :: t) ≠ [] := by simp
        rw [getLast?_cons_ne_nil (removeCR_ne_nil hne), ih,
          getLast?_cons_ne_nil hne]

theorem stripTrailingCR_nil : stripTrailingCR [] = [] := rfl

theorem stripTrailingCR_cons {c : Char} {h : List Char} (hne : h ≠ []) :
    stripTrailingCR (c :: h) = c :: stripTrailingCR h := by
  rw [stripTrailingCR, stripTrailingCR, getLast?_cons_ne_nil hne]
  split
  · rw [dropLast_cons_ne_nil hne]
  · rfl

/-- The split of the CRLF-normalised string equals the split of the original
with every newline-terminated segment stripped of its trailing CR. -/
theorem splitOn_removeCR (s : List Char) :
    splitOn '\n' (removeCRBeforeLF s) = mapInit stripTrailingCR (splitOn '\n' s) := by
  induction s with
  | nil => rfl
  | cons c rest ih =>
    rw [removeCRBeforeLF]
    split
    · next hdrop =>
      obtain ⟨hc, hhead⟩ := hdrop
      subst hc
      cases rest with
      | nil => simp at hhead
      | cons d rest2 =>
        simp only [List.head?_cons, Option.some.injEq] at hhead
        subst hhead
        rw [ih]
        have hsplit : splitOn '\n' ('\n' :: rest2) = [] :: splitOn '\n' rest2 := by
          rw [splitOn, if_pos rfl]
        rw [hsplit]
        have hC : splitOn '\n' ('\r' :: '\n' :: rest2) =
            ['\r'] :: splitOn '\n' rest2 := by
          rw [splitOn, if_neg (by decide), hsplit, consHead]
        rw [hC, mapInit_cons (splitOn_ne_nil _ _), mapInit_cons (splitOn_ne_nil _ _)]
        norm_num [stripTrailingCR]
    · next hkeep =>
      by_cases hc : c = '\n'
      · subst hc
        rw [splitOn, if_pos rfl, splitOn, if_pos rfl, ih,
          mapInit_cons (splitOn_ne_nil _ _)]
        rfl
      · rw [splitOn, if_neg hc, splitOn, if_neg hc, ih]
        rcases hs : splitOn '\n' rest with _ | ⟨h, t⟩
        · exact absurd hs (splitOn_ne_nil _ _)
        · cases t with
          | nil => simp [consHead, mapInit]
          | cons u v =>
            have hh : stripTrailingCR (c :: h) = c :: stripTrailingCR h := by
              cases h with
              | cons a b => exact stripTrailingCR_cons (by simp)
              | nil =>
                have hcr : c ≠ '\r' := by
                  intro hcr
                  subst hcr
                  have := splitOn_head_empty hs (by simp)
                  rcases rest with _ | ⟨d, r2⟩
                  · simp at this
                  · simp only [List.head?_cons, Option.some.injEq] at this
                    exact hkeep ⟨rfl, by simp [this]⟩
                simp [stripTrailingCR, hcr]
            show consHead c (mapInit stripTrailingCR (h :: u :: v)) =
              mapInit stripTrailingCR (consHead c (h :: u :: v))
            rw [consHead, @mapInit_cons stripTrailingCR (c :: h) (u :: v) (by simp),
              @mapInit_cons stripTrailingCR h (u :: v) (by simp), consHead, hh]

/-- The lines of a CRLF-free string: split at newlines, dropping the
trailing empty segment of a final newline. -/
def plainLines (s : List Char) : List (List Char) :=
  match s with
  | [] => []
  | _ :: _ =>
    if s.getLast? = some '\n' then (splitOn '\n' s).dropLast else splitOn '\n' s

theorem plainLines_of_ne_nil {s : List Char} (h : s ≠ []) :
    plainLines s =
      (if s.getLast? = some '\n' then (splitOn '\n' s).dropLast else splitOn '\n' s) := by
  cases s with
  | nil => exact absurd rfl h
  | cons c rest => rfl

theorem rustLines_of_ne_nil {s : List Char} (h : s ≠ []) :
    rustLines s =
      (if s.getLast? = some '\n' then (mapInit stripTrailingCR (splitOn '\n' s)).dropLast
       else mapInit stripTrailingCR (splitOn '\n' s)) := by
  cases s with
  | nil => exact absurd rfl h
  | cons c rest => rfl

theorem removeCR_eq_nil {s : List Char} (h : removeCRBeforeLF s = []) : s = [] := by
  by_cases hs : s = []
  · exact hs
  · exact absurd h (removeCR_ne_nil hs)

/-- Step A: the lines the code computes are the plain newline-split lines of
the CRLF-normalised string. -/
theorem rustLines_removeCR (s : List Char) :
    rustLines s = plainLines (removeCRBeforeLF s) := by
  by_cases hs : s = []
  · subst hs
    rfl
  · have hrm : removeCRBeforeLF s ≠ [] := removeCR_ne_nil hs
    rw [rustLines_of_ne_nil hs, plainLines_of_ne_nil hrm, removeCR_getLast,
      splitOn_removeCR]

/-- The item stream from the plain lines of a CRLF-free string. -/
def parsePlain (s : List Char) : List PrintItem :=
  (match plainLines s with
   | [] => []
   | first :: rest => parse_string_line first ++ nlLinesItems rest) ++
  (if s.getLast? = some '\n' then [PrintItem.signal Signal.newLine] else [])

/-- `parse_string` equals the plain-lines stream of the CRLF-normalised
string. -/
theorem parse_string_eq_parsePlain (s : List Char) :
    parse_string s = parsePlain (removeCRBeforeLF s) := by
  rw [parse_string, parse_string_lines, parsePlain, rustLines_removeCR,
    removeCR_getLast]

/-- Prepend a run of ordinary characters to an item stream, merging with a
leading `String` item when there is one. -/
def mergeRun (run : List Char) (items : List PrintItem) : List PrintItem :=
  match run with
  | [] => items
  | _ =>
    match items with
    | PrintItem.str sc :: tail =>
      PrintItem.str { text := String.mk (run ++ sc.text.data),
                      charCount := (run ++ sc.text.data).length } :: tail
    | _ => PrintItem.str { text := String.mk run, charCount := run.length } :: items

theorem mergeRun_nil_items : ∀ run : List Char, mergeRun run [] = strOptItem run := by
  intro run
  cases run with
  | nil => rfl
  | cons c r => rfl

theorem mergeRun_signal (run : List Char) (sg : Signal) (X : List PrintItem) :
    mergeRun run (PrintItem.signal sg :: X) =
      strOptItem run ++ PrintItem.signal sg :: X := by
  cases run with
  | nil => rfl
  | cons c r => rfl

theorem mergeRun_str (run : List Char) (hrun : run ≠ []) (sc : StringContainer)
    (tail : List PrintItem) :
    mergeRun run (PrintItem.str sc :: tail) =
      PrintItem.str { text := String.mk (run ++ sc.text.data),
                      charCount := (run ++ sc.text.data).length } :: tail := by
  cases run with
  | nil => exact absurd rfl hrun
  | cons c r => rfl

theorem mergeRun_ne_nil {run : List Char} (hrun : run ≠ []) (X : List PrintItem) :
    mergeRun run X ≠ [] := by
  cases run with
  | nil => exact absurd rfl hrun
  | cons c r =>
    cases X with
    | nil => simp [mergeRun]
    | cons i tail => cases i <;> simp [mergeRun]

/-- Merging an appended run is merging in two stages. -/
theorem mergeRun_append (a b : List Char) (hb : b ≠ []) (X : List PrintItem) :
    mergeRun (a ++ b) X = mergeRun a (mergeRun b X) := by
  cases a with
  | nil => rfl
  | cons a0 a' =>
    cases b with
    | nil => exact absurd rfl hb
    | cons b0 b' =>
      cases X with
      | nil => rfl
      | cons i tail =>
        cases i with
        | str sc => simp [mergeRun, List.append_assoc]
        | signal sg => rfl
        | infoItem j => rfl
        | condition cc => rfl
        | rcPath pp => rfl

/-- Merging distributes over an append with a non-empty front. -/
theorem mergeRun_append_items (run : List Char) {X : List PrintItem}
    (hX : X ≠ []) (Y : List PrintItem) :
    mergeRun run (X ++ Y) = mergeRun run X ++ Y := by
  cases run with
  | nil => rfl
  | cons c r =>
    cases X with
    | nil => exact absurd rfl hX
    | cons i tail => cases i <;> rfl

/-- The run-accumulating scan is merging the pending run onto the clean
scan. -/
theorem specItemsAux_acc (t : List Char) :
    ∀ acc : List Char,
      specItemsAux acc t = mergeRun acc.reverse (specItemsAux [] t) := by
  induction t with
  | nil =>
    intro acc
    have h0 : specItemsAux [] ([] : List Char) = [] := rfl
    rw [specItemsAux, h0, mergeRun_nil_items]
  | cons c rest ih =>
    intro acc
    have hflush : strOptItem ([] : List Char).reverse = ([] : List PrintItem) := rfl
    by_cases hn : c = '\n'
    · subst hn
      rw [specItemsAux, specItemsAux, if_pos rfl, if_pos rfl, hflush,
        List.nil_append, mergeRun_signal]
    · by_cases ht : c = '\t'
      · subst ht
        rw [specItemsAux, specItemsAux, if_neg hn, if_neg hn, if_pos rfl, if_pos rfl,
          hflush, List.nil_append, mergeRun_signal]
      · rw [specItemsAux, specItemsAux, if_neg hn, if_neg ht, if_neg hn, if_neg ht,
          ih (c :: acc), ih [c], List.reverse_cons]
        have hrev : ([c] : List Char).reverse = [c] := by simp
        rw [hrev, mergeRun_append acc.reverse [c] (by simp) (specItemsAux [] rest)]

theorem specItems_cons_ordinary {c : Char} (hn : c ≠ '\n') (ht : c ≠ '\t')
    (rest : List Char) :
    specItemsAux [] (c :: rest) = mergeRun [c] (specItemsAux [] rest) := by
  rw [specItemsAux, if_neg hn, if_neg ht, specItemsAux_acc rest [c]]
  have hrev : ([c] : List Char).reverse = [c] := by simp
  rw [hrev]

theorem parse_string_line_nil : parse_string_line [] = [] := rfl

theorem parse_string_line_tab (l : List Char) :
    parse_string_line ('\t' :: l) = PrintItem.signal Signal.tab :: parse_string_line l := by
  rcases hs : splitOn '\t' l with _ | ⟨h, t⟩
  · exact absurd hs (splitOn_ne_nil _ _)
  · rw [parse_string_line, splitOn, if_pos rfl, hs, parse_string_line, hs]
    rfl

theorem parse_string_line_ordinary {c : Char} (hc : c ≠ '\t') (l : List Char) :
    parse_string_line (c :: l) = mergeRun [c] (parse_string_line l) := by
  rcases hs : splitOn '\t' l with _ | ⟨h, t⟩
  · exact absurd hs (splitOn_ne_nil _ _)
  · rw [parse_string_line, splitOn, if_neg hc, hs, consHead, parse_string_line, hs]
    cases h with
    | nil =>
      cases t with
      | nil =>
        show strOptItem [c] ++ tabSegsItems [] = mergeRun [c] (strOptItem [] ++ tabSegsItems [])
        rw [tabSegsItems.eq_def]
        show strOptItem [c] ++ [] = mergeRun [c] (strOptItem [] ++ [])
        rw [List.append_nil, List.append_nil]
        show strOptItem [c] = mergeRun [c] []
        rw [mergeRun_nil_items]
      | cons seg t' =>
        show strOptItem [c] ++ tabSegsItems (seg :: t') =
          mergeRun [c] (strOptItem [] ++ tabSegsItems (seg :: t'))
        show strOptItem [c] ++ tabSegsItems (seg :: t') =
          mergeRun [c] ([] ++ tabSegsItems (seg :: t'))
        rw [List.nil_append]
        show strOptItem [c] ++ (PrintItem.signal Signal.tab :: (strOptItem seg ++ tabSegsItems t')) =
          mergeRun [c] (PrintItem.signal Signal.tab :: (strOptItem seg ++ tabSegsItems t'))
        rw [mergeRun_signal]
    | cons a b =>
      show strOptItem (c :: a :: b) ++ tabSegsItems t =
        mergeRun [c] (strOptItem (a :: b) ++ tabSegsItems t)
      show strOptItem (c :: a :: b) ++ tabSegsItems t =
        mergeRun [c] (PrintItem.str { text := String.mk (a :: b), charCount := (a :: b).length } :: tabSegsItems t)
      rw [mergeRun_str [c] (by simp) _ _]
      rfl

theorem parse_string_line_ne_nil {l : List Char} (hl : l ≠ []) :
    parse_string_line l ≠ [] := by
  cases l with
  | nil => exact absurd rfl hl
  | cons c rest =>
    by_cases hc : c = '\t'
    · subst hc
      rw [parse_string_line_tab]
      simp
    · rw [parse_string_line_ordinary hc]
      exact mergeRun_ne_nil (by simp) _

theorem plainLines_nil : plainLines [] = [] := rfl

theorem plainLines_ne_nil {s : List Char} (hs : s ≠ []) : plainLines s ≠ [] := by
  rw [plainLines_of_ne_nil hs]
  split
  · next hlast =>
    obtain ⟨h, t, hsp, ht⟩ := splitOn_getLast_sep hlast
    rw [hsp, dropLast_cons_ne_nil ht]
    simp
  · exact splitOn_ne_nil _ _

theorem plainLines_newline (rest : List Char) :
    plainLines ('\n' :: rest) = [] :: plainLines rest := by
  cases rest with
  | nil => rfl
  | cons d t =>
    have hne : (d :: t) ≠ [] := by simp
    rw [plainLines_of_ne_nil (by simp), plainLines_of_ne_nil hne,
      getLast?_cons_ne_nil hne]
    have hsp : splitOn '\n' ('\n' :: d :: t) = [] :: splitOn '\n' (d :: t) := by
      rw [splitOn, if_pos rfl]
    rw [hsp]
    split
    · rw [dropLast_cons_ne_nil (splitOn_ne_nil '\n' (d :: t))]
    · rfl

theorem plainLines_ordinary {c : Char} (hc : c ≠ '\n') (rest : List Char) :
    plainLines (c :: rest) = consHead c (plainLines rest) := by
  cases rest with
  | nil =>
    rw [plainLines_of_ne_nil (by simp)]
    have hlast : ([c] : List Char).getLast? = some c := rfl
    rw [hlast, if_neg (by simpa using hc), splitOn, if_neg hc]
    rfl
  | cons d t =>
    have hne : (d :: t) ≠ [] := by simp
    rw [plainLines_of_ne_nil (by simp), plainLines_of_ne_nil hne,
      getLast?_cons_ne_nil hne]
    have hsp : splitOn '\n' (c :: d :: t) = consHead c (splitOn '\n' (d :: t)) := by
      rw [splitOn, if_neg hc]
    rw [hsp]
    split
    · next hlast =>
      obtain ⟨h, u, hsu, hu⟩ := splitOn_getLast_sep hlast
      rw [hsu, consHead, dropLast_cons_ne_nil hu, dropLast_cons_ne_nil hu, consHead]
    · rfl

theorem mergeRun_nlTrail (run : List Char) (r : List (List Char)) (tr : List PrintItem)
    (htr : tr = [] ∨ ∃ sg Y, tr = PrintItem.signal sg :: Y) :
    mergeRun run (nlLinesItems r ++ tr) = strOptItem run ++ (nlLinesItems r ++ tr) := by
  cases r with
  | nil =>
    show mergeRun run tr = strOptItem run ++ tr
    rcases htr with h | ⟨sg, Y, h⟩ <;> subst h
    · rw [mergeRun_nil_items, List.append_nil]
    · rw [mergeRun_signal]
  | cons l r' =>
    show mergeRun run (PrintItem.signal Signal.newLine ::
        ((parse_string_line l ++ nlLinesItems r') ++ tr)) =
      strOptItem run ++ (PrintItem.signal Signal.newLine ::
        ((parse_string_line l ++ nlLinesItems r') ++ tr))
    rw [mergeRun_signal]

theorem parsePlain_nil : parsePlain [] = [] := rfl

theorem plainLines_cons_ex {s : List Char} (hs : s ≠ []) :
    ∃ f r, plainLines s = f :: r := by
  cases hpl : plainLines s with
  | nil => exact absurd hpl (plainLines_ne_nil hs)
  | cons f r => exact ⟨f, r, rfl⟩

theorem parsePlain_newline (rest : List Char) :
    parsePlain ('\n' :: rest) = PrintItem.signal Signal.newLine :: parsePlain rest := by
  cases rest with
  | nil => rfl
  | cons d t =>
    have hner : (d :: t) ≠ [] := by simp
    obtain ⟨f, r, hfr⟩ := plainLines_cons_ex hner
    simp only [parsePlain, plainLines_newline, hfr, getLast?_cons_ne_nil hner,
      nlLinesItems, parse_string_line_nil, List.nil_append, List.cons_append,
      List.append_assoc]

theorem parsePlain_tab (rest : List Char) :
    parsePlain ('\t' :: rest) = PrintItem.signal Signal.tab :: parsePlain rest := by
  cases rest with
  | nil => rfl
  | cons d t =>
    have hner : (d :: t) ≠ [] := by simp
    obtain ⟨f, r, hfr⟩ := plainLines_cons_ex hner
    simp only [parsePlain, plainLines_ordinary (by decide : ('\t' : Char) ≠ '\n'), hfr,
      consHead, getLast?_cons_ne_nil hner, parse_string_line_tab,
      List.cons_append, List.append_assoc]

theorem parsePlain_ordinary {c : Char} (hn : c ≠ '\n') (ht : c ≠ '\t') (rest : List Char) :
    parsePlain (c :: rest) = mergeRun [c] (parsePlain rest) := by
  cases rest with
  | nil =>
    show parsePlain [c] = mergeRun [c] (parsePlain [])
    rw [parsePlain_nil, mergeRun_nil_items]
    simp only [parsePlain, plainLines_ordinary hn, plainLines_nil, consHead,
      parse_string_line_ordinary ht, parse_string_line_nil, mergeRun_nil_items]
    have hlast : ([c] : List Char).getLast? = some c := rfl
    rw [hlast, if_neg (by simpa using hn)]
    simp [nlLinesItems]
  | cons d t =>
    have hner : (d :: t) ≠ [] := by simp
    obtain ⟨f, r, hfr⟩ := plainLines_cons_ex hner
    have htr : (if (d :: t).getLast? = some '\n'
          then [PrintItem.signal Signal.newLine] else ([] : List PrintItem)) = [] ∨
        ∃ sg Y, (if (d :: t).getLast? = some '\n'
          then [PrintItem.signal Signal.newLine] else ([] : List PrintItem)) =
            PrintItem.signal sg :: Y := by
      split
      · exact Or.inr ⟨Signal.newLine, [], rfl⟩
      · exact Or.inl rfl
    by_cases hf : f = []
    · subst hf
      simp only [parsePlain, plainLines_ordinary hn, hfr, consHead,
        getLast?_cons_ne_nil hner, parse_string_line_ordinary ht, parse_string_line_nil,
        mergeRun_nil_items, List.nil_append, List.append_assoc]
      rw [mergeRun_nlTrail [c] r _ htr]
    · simp only [parsePlain, plainLines_ordinary hn, hfr, consHead,
        getLast?_cons_ne_nil hner, parse_string_line_ordinary ht, List.append_assoc]
      rw [mergeRun_append_items [c] (parse_string_line_ne_nil hf)
        (nlLinesItems r ++ (if (d :: t).getLast? = some '\n'
          then [PrintItem.signal Signal.newLine] else ([] : List PrintItem)))]

theorem parsePlain_eq_specItems (t : List Char) :
    parsePlain t = specItemsAux [] t := by
  induction t with
  | nil => rfl
  | cons c rest ih =>
    by_cases hn : c = '\n'
    · subst hn
      rw [parsePlain_newline, ih, specItemsAux, if_pos rfl]
      rfl
    · by_cases ht : c = '\t'
      · subst ht
        rw [parsePlain_tab, ih, specItemsAux, if_neg hn, if_pos rfl]
        rfl
      · rw [parsePlain_ordinary hn ht, ih, specItems_cons_ordinary hn ht]

/-- C9 (amended): `parse_string(text)` produces exactly the claim's
interleaving — `'\n'` to `NewLine`, `'\t'` to `Tab`, maximal runs of other
characters in order as `String` items, empty runs omitted — computed after
dropping each carriage return that immediately precedes a line feed (Rust
`lines()` treats `\r\n` as a line terminator and strips the `\r`). -/
theorem parse_string_spec (s : List Char) :
    parse_string s = parse_string_amended s := by
  rw [parse_string_eq_parsePlain, parse_string_amended, parsePlain_eq_specItems]

end DprintFmt
